import Mathlib

/-!
Verification of the PM dashboard core (Pm_dashboard.py): a shallow embedding
of its date and numeric parsing helpers, the due-point calculator
compute_next_due, the status classifier compute_status, the KPI aggregation
loop and the log-completion handler, together with theorems settling the
specification claims about them.

Rows are modelled with all sixteen columns as optional strings, matching the
all-text tabular storage (a missing cell is none).  Dates are unbounded
year/month/day triples; Python dates are confined to years 1..9999, so
theorems that rely on printing and re-parsing a date carry an explicit
year bound.
-/

namespace PmDash

/-- Characters stripped by the Python str.strip default (the ASCII whitespace
characters; the rarely seen non-ASCII Unicode spaces are not modelled). -/
def pyWhitespace (c : Char) : Bool :=
  c == ' ' || c == '\t' || c == '\n' || c == '\r' || c == '\x0b' || c == '\x0c'

/-- Model of Python str.strip with no arguments. -/
def pyStrip (s : String) : String :=
  String.mk (((s.data.dropWhile pyWhitespace).reverse.dropWhile pyWhitespace).reverse)

/-- Consume a maximal run of decimal digits, returning the accumulated value,
the number of digits consumed and the rest of the input. -/
def takeDigits : List Char → Nat → Nat → Nat × Nat × List Char
  | [], acc, cnt => (acc, cnt, [])
  | c :: cs, acc, cnt =>
    if c.isDigit then takeDigits cs (10 * acc + (c.toNat - 48)) (cnt + 1)
    else (acc, cnt, c :: cs)

/-- Decimal digit as a character. -/
def digitChar (d : Nat) : Char := Char.ofNat (48 + d)

/-- Big-endian decimal digits of a positive number, with fuel for structural
recursion (fuel at least the number itself is always enough). -/
def natDigitsAux : Nat → Nat → List Char
  | 0, _ => []
  | _ + 1, 0 => []
  | fuel + 1, n + 1 => natDigitsAux fuel ((n + 1) / 10) ++ [digitChar ((n + 1) % 10)]

/-- Decimal digits of a natural number, as Python str prints it. -/
def natChars (n : Nat) : List Char := if n = 0 then ['0'] else natDigitsAux n n

/-- Decimal digits padded on the left with zeros to width w, as the strftime
directives %Y (w = 4) and %m, %d (w = 2) print date components. -/
def padChars (w n : Nat) : List Char :=
  List.replicate (w - (natChars n).length) '0' ++ natChars n

/-- Decimal representation of an integer, as Python str prints it. -/
def intChars (n : Int) : List Char :=
  if n < 0 then '-' :: natChars n.natAbs else natChars n.toNat

/-- String form of an integer. -/
def intToString (n : Int) : String := String.mk (intChars n)

/-- Calendar date, unbounded (Python confines years to 1..9999). -/
structure Date where
  year : Nat
  month : Nat
  day : Nat
deriving DecidableEq, Repr

/-- Gregorian leap-year rule. -/
def isLeap (y : Nat) : Bool := y % 4 == 0 && (y % 100 != 0 || y % 400 == 0)

/-- Length of a month. -/
def daysInMonth (y m : Nat) : Nat :=
  if m = 2 then (if isLeap y then 29 else 28)
  else if m = 4 ∨ m = 6 ∨ m = 9 ∨ m = 11 then 30
  else 31

/-- In-range year, month and day. -/
def validDate (d : Date) : Bool :=
  decide (1 ≤ d.year ∧ 1 ≤ d.month ∧ d.month ≤ 12 ∧ 1 ≤ d.day
    ∧ d.day ≤ daysInMonth d.year d.month)

/-- Days in the months of year y strictly before month m. -/
def daysBeforeMonth (y m : Nat) : Nat :=
  ((List.range (m - 1)).map (fun i => daysInMonth y (i + 1))).sum

/-- Proleptic-Gregorian day number with day 1 = January 1 of year 1, exactly
as Python date.toordinal computes it; differences of two dates in days, as
produced by Python date subtraction, are differences of this number. -/
def toordinal (d : Date) : Nat :=
  365 * (d.year - 1) + (d.year - 1) / 4 + (d.year - 1) / 400 - (d.year - 1) / 100
    + daysBeforeMonth d.year d.month + d.day

/-- Successor date. -/
def nextDay (d : Date) : Date :=
  if d.day < daysInMonth d.year d.month then ⟨d.year, d.month, d.day + 1⟩
  else if d.month < 12 then ⟨d.year, d.month + 1, 1⟩
  else ⟨d.year + 1, 1, 1⟩

/-- Date plus a number of days, as Python date + timedelta(days=n); a week is
seven days, so timedelta(weeks=n) is addDays with 7 * n.  Total over
unbounded dates, while the Python addition raises OverflowError when the
result leaves years 1..9999: theorems asserting a returned date therefore
carry the in-range guard pyDateOk on the result. -/
def addDays : Date → Nat → Date
  | d, 0 => d
  | d, n + 1 => addDays (nextDay d) n

/-- Date plus k calendar months with the day-of-month clamped to the last
valid day of the target month, as dateutil relativedelta(months=k) adds.
Total over unbounded dates, while the Python addition raises when the result
leaves years 1..9999: theorems asserting a returned date therefore carry the
in-range guard pyDateOk on the result. -/
def addMonths (d : Date) (k : Nat) : Date :=
  let tot := 12 * d.year + (d.month - 1) + k
  ⟨tot / 12, tot % 12 + 1, min d.day (daysInMonth (tot / 12) (tot % 12 + 1))⟩

/-- Linear month count of a date, used to state what calendar-month addition
does to the year and month components. -/
def monthIndex (d : Date) : Nat := 12 * d.year + (d.month - 1)

/-- Character form of a date in the %Y-%m-%d layout of the source's DATE_FMT
(zero-padded year, month and day). -/
def dateChars (d : Date) : List Char :=
  padChars 4 d.year ++ '-' :: (padChars 2 d.month ++ '-' :: padChars 2 d.day)

/-- String form of a date, as strftime(DATE_FMT) prints it. -/
def dateToStr (d : Date) : String := String.mk (dateChars d)

/-- Final stage of the date parser: the day digits must exhaust the input,
the year must have exactly four digits, month and day one or two, and the
components must name a real calendar date (year at least 1, month 1..12, day
at most the month length), as strptime plus the datetime constructor check. -/
def dateStage3 (y yn m mn : Nat) : Nat × Nat × List Char → Option Date
  | (d, dn, r3) =>
    if r3 = [] ∧ yn = 4 ∧ 1 ≤ mn ∧ mn ≤ 2 ∧ 1 ≤ dn ∧ dn ≤ 2 ∧ 1 ≤ y ∧ 1 ≤ m ∧ m ≤ 12
        ∧ 1 ≤ d ∧ d ≤ daysInMonth y m
    then some ⟨y, m, d⟩ else none

/-- Month-and-day stage of the date parser: after the year, a dash must
introduce the month digits and a second dash the day digits. -/
def dateStage2 (y yn : Nat) : Nat × Nat × List Char → Option Date
  | (m, mn, '-' :: r2) => dateStage3 y yn m mn (takeDigits r2 0 0)
  | _ => none

/-- Year stage of the date parser. -/
def dateStage1 : Nat × Nat × List Char → Option Date
  | (y, yn, '-' :: r1) => dateStage2 y yn (takeDigits r1 0 0)
  | _ => none

/-- Model of the strptime(s, DATE_FMT) branch of the source's parse_date: a
four-digit year, a one- or two-digit month and day, all in range for the
Gregorian calendar.  The pandas to_datetime fallback of parse_date, which
additionally accepts other date layouts, is not modelled; the layout accepted
here is the one the program itself writes into its stored date columns. -/
def pyStrptimeDate (s : String) : Option Date := dateStage1 (takeDigits s.data 0 0)

/-- Model of the source's parse_date on stored cell values: an absent cell or
the empty string is no date, anything else goes through the strict date
parser.  Exact on the columns the program itself writes in %Y-%m-%d form;
on a user-supplied LastDoneDate the pandas fallback could additionally
accept other layouts, so theorems whose conclusion depends on that field
restrict it to absent, empty or strictly parseable values, where this model
and the source's parser chain agree. -/
def parse_date (v : Option String) : Option Date :=
  match v with
  | none => none
  | some s => if s = "" then none else pyStrptimeDate s

/-- Truncation of a rational toward zero, as Python int() applied to a finite
float truncates. -/
def ratTrunc (q : ℚ) : ℤ := Int.tdiv q.num q.den

/-- Leading sign of a float literal: a minus or plus sign is consumed and
remembered, anything else leaves the input unchanged. -/
def signSplit (cs : List Char) : Bool × List Char :=
  match cs with
  | '-' :: t => (true, t)
  | '+' :: t => (false, t)
  | _ => (false, cs)

/-- Fractional part of a float literal: digits after a decimal point, or
nothing. -/
def fracSplit (r1 : List Char) : Nat × Nat × List Char :=
  match r1 with
  | '.' :: t => takeDigits t 0 0
  | _ => (0, 0, r1)

/-- Exponent part of a Python float literal (after the letter e or E):
a signed digit run that must consume the rest of the input.  The parse
result of a float literal is kept as sign, mantissa and decimal exponent
(sign, m, e stand for the value (-1)^sign * m * 10^e). -/
def pyExpParts (ipfp fpn : Nat) (neg : Bool) (t : List Char) :
    Option (Bool × Nat × Int) :=
  match takeDigits (signSplit t).2 0 0 with
  | (ev, en, r) =>
    if en = 0 ∨ r ≠ [] then none
    else some (neg, ipfp,
      (if (signSplit t).1 then -(ev : Int) else (ev : Int)) - (fpn : Int))

/-- Tail of a float literal after the mantissa: nothing, or an exponent
introduced by the letter e or E; anything else is a parse failure. -/
def expSplitParts (ipfp fpn : Nat) (neg : Bool) (r2 : List Char) :
    Option (Bool × Nat × Int) :=
  match r2 with
  | [] => some (neg, ipfp, -(fpn : Int))
  | 'e' :: t => pyExpParts ipfp fpn neg t
  | 'E' :: t => pyExpParts ipfp fpn neg t
  | _ => none

/-- Mantissa stage of the float parser: given the sign, the integer part
(value and digit count) and the parsed fractional part, require at least one
digit and hand the mantissa to the exponent stage. -/
def pyFloatAux3 (neg : Bool) (ip ipn : Nat) : Nat × Nat × List Char →
    Option (Bool × Nat × Int)
  | (fp, fpn, r2) =>
    if ipn + fpn = 0 then none
    else expSplitParts (ip * 10 ^ fpn + fp) fpn neg r2

/-- Integer-part stage of the float parser. -/
def pyFloatAux2 (neg : Bool) : Nat × Nat × List Char → Option (Bool × Nat × Int)
  | (ip, ipn, r1) => pyFloatAux3 neg ip ipn (fracSplit r1)

/-- Sign stage of the float parser. -/
def pyFloatAux : Bool × List Char → Option (Bool × Nat × Int)
  | (neg, cs) => pyFloatAux2 neg (takeDigits cs 0 0)

/-- Model of float(s) restricted to finite decimal values: optional
surrounding whitespace and sign, an integer part and/or a fractional part,
and an optional exponent; the result is the parsed sign, mantissa and
decimal exponent.  The strings nan, inf and infinity, which float() accepts
but int() then rejects with an error, are mapped to none here, because
safe_int treats them exactly like a parse failure; digit-group underscores
and the rounding of the decimal value to the nearest binary double are not
modelled here: the exact accept-or-absent boundary of the source's safe_int,
including underscores and the overflow of large literals to infinity, is
modelled separately by pyFloatLex and safe_int_none below. -/
def pyFloatParts (s : String) : Option (Bool × Nat × Int) :=
  pyFloatAux (signSplit (pyStrip s).data)

/-- Truncation toward zero of the value of a parsed float literal, computed
with integer arithmetic only: scale the mantissa up for a nonnegative
exponent, scale it down with natural division (a floor on the magnitude,
hence a truncation toward zero once the sign is applied) for a negative
one. -/
def truncParts : Bool × Nat × Int → Int
  | (neg, m, e) =>
    if 0 ≤ e then
      (if neg then -((m * 10 ^ e.toNat : ℕ) : Int) else ((m * 10 ^ e.toNat : ℕ) : Int))
    else
      (if neg then -((m / 10 ^ (-e).toNat : ℕ) : Int) else ((m / 10 ^ (-e).toNat : ℕ) : Int))

/-- Exact rational value of a parsed float literal. -/
def ratOfParts : Bool × Nat × Int → ℚ
  | (neg, m, e) => (if neg then -(m : ℚ) else (m : ℚ)) * (10 : ℚ) ^ e

/-- Exact rational value of float(s), when it parses as a finite decimal. -/
def pyFloatRat (s : String) : Option ℚ :=
  (pyFloatParts s).map ratOfParts

/-- Model of the source's safe_int: absent or blank values are none, anything
else is int(float(v)), a truncation toward zero of the parsed value. -/
def safe_int (v : Option String) : Option Int :=
  match v with
  | none => none
  | some s => if pyStrip s = "" then none else (pyFloatParts s).map truncParts

/-- Consume a maximal run of decimal digits grouped by single underscores, as
the CPython number lexer used by float() does: an underscore is consumed only
between two digits, so runs like 1_0 read as 10 while 1__0, 1_ and _1 leave
the underscore (and what follows) unconsumed for the caller to reject.
Returns the accumulated value, the digit count and the rest of the input. -/
def takeDigitsUAux : Nat → List Char → Nat → Nat → Nat × Nat × List Char
  | 0, cs, acc, cnt => (acc, cnt, cs)
  | _ + 1, [], acc, cnt => (acc, cnt, [])
  | fuel + 1, c :: cs, acc, cnt =>
    if c.isDigit then
      match cs with
      | '_' :: d :: cs2 =>
        if d.isDigit then
          takeDigitsUAux fuel (d :: cs2) (10 * acc + (c.toNat - 48)) (cnt + 1)
        else (10 * acc + (c.toNat - 48), cnt + 1, '_' :: d :: cs2)
      | '_' :: [] => (10 * acc + (c.toNat - 48), cnt + 1, ['_'])
      | _ => takeDigitsUAux fuel cs (10 * acc + (c.toNat - 48)) (cnt + 1)
    else (acc, cnt, c :: cs)

/-- Underscore-grouped digit run with enough fuel for any input. -/
def takeDigitsU (cs : List Char) (acc cnt : Nat) : Nat × Nat × List Char :=
  takeDigitsUAux (cs.length + 1) cs acc cnt

/-- ASCII lower-casing, for the case-insensitive special float words. -/
def lowerChar (c : Char) : Char :=
  if 'A' ≤ c ∧ c ≤ 'Z' then Char.ofNat (c.toNat + 32) else c

/-- The special words float() accepts besides decimal literals: inf,
infinity and nan in any letter case (an optional sign precedes them). -/
def pyLitSpecial (cs : List Char) : Bool :=
  cs.map lowerChar == ['i', 'n', 'f']
    || cs.map lowerChar == ['i', 'n', 'f', 'i', 'n', 'i', 't', 'y']
    || cs.map lowerChar == ['n', 'a', 'n']

/-- Signed exponent digits after the letter e or E of a float literal; the
digits may be underscore-grouped and must exhaust the input. -/
def pyExpDigitsU (cs : List Char) : Option Int :=
  match signSplit cs with
  | (en, t) =>
    match takeDigitsU t 0 0 with
    | (ev, cnt, r) =>
      if cnt = 0 ∨ r ≠ [] then none
      else some (if en then -(ev : Int) else (ev : Int))

/-- Tail of a float literal after the mantissa: nothing, or an exponent
introduced by e or E; anything else fails the parse. -/
def pyExpLex (cs : List Char) : Option Int :=
  match cs with
  | [] => some 0
  | 'e' :: t => pyExpDigitsU t
  | 'E' :: t => pyExpDigitsU t
  | _ => none

/-- What float() accepts: a finite decimal literal, kept as sign, mantissa
and decimal exponent, or one of the special words nan, inf and infinity. -/
inductive PyLit where
  | finite (neg : Bool) (m : Nat) (e : Int)
  | special
deriving DecidableEq, Repr

/-- The full lexical grammar of float(s): optional surrounding whitespace,
an optional sign, then either a special word or a decimal literal made of an
integer part and/or a fractional part (digits underscore-grouped as CPython
allows) and an optional exponent.  Returns none exactly when float() raises
ValueError; as with pyStrip, only ASCII digits are modelled, not the rarely
seen non-ASCII Unicode decimal digits float() also accepts. -/
def pyFloatLex (s : String) : Option PyLit :=
  match signSplit (pyStrip s).data with
  | (neg, rest) =>
    if pyLitSpecial rest then some PyLit.special
    else
      match takeDigitsU rest 0 0 with
      | (ip, ipn, r1) =>
        match r1 with
        | '.' :: r2 =>
          (match takeDigitsU r2 0 0 with
           | (fp, fpn, r3) =>
             if ipn + fpn = 0 then none
             else
               match pyExpLex r3 with
               | none => none
               | some ex => some (PyLit.finite neg (ip * 10 ^ fpn + fp) (ex - (fpn : Int))))
        | _ =>
          if ipn = 0 then none
          else
            match pyExpLex r1 with
            | none => none
            | some ex => some (PyLit.finite neg ip ex)

/-- Smallest magnitude at which float() rounds a finite decimal literal to
infinity under round-to-nearest-even: the midpoint between the largest
finite double 2^1024 - 2^971 and 2^1024 (the tie itself rounds up, to
infinity). -/
def floatMaxBound : Nat := 2 ^ 1024 - 2 ^ 970

/-- Whether a parsed finite decimal literal overflows the double range, so
that float() returns an infinity and int() then raises OverflowError. -/
def finiteOverflows (m : Nat) (e : Int) : Bool :=
  if 0 ≤ e then decide (floatMaxBound ≤ m * 10 ^ e.toNat)
  else decide (floatMaxBound * 10 ^ (-e).toNat ≤ m)

/-- Whether the source's safe_int returns None, translated clause by clause:
an absent value, a blank value, a string float() rejects with ValueError,
the special words nan, inf and infinity (int() of a nan or an infinity
raises), and finite literals whose value overflows the double range to an
infinity; the bare except of safe_int catches every one of those errors.
This refines the accept-or-absent boundary of the safe_int model above,
whose value side keeps the exact decimal value. -/
def safe_int_none (v : Option String) : Bool :=
  match v with
  | none => true
  | some s =>
    if pyStrip s = "" then true
    else
      match pyFloatLex s with
      | none => true
      | some PyLit.special => true
      | some (PyLit.finite _ m e) => finiteOverflows m e

/-- PM record row: the sixteen stored columns, each an optional string,
matching base_columns() of the source. -/
structure Row where
  Site : Option String
  AssetID : Option String
  AssetName : Option String
  Component : Option String
  PMTask : Option String
  IntervalType : Option String
  IntervalValue : Option String
  LastDoneDate : Option String
  LastMeter : Option String
  CurrentMeter : Option String
  NextDueDate : Option String
  NextDueMeter : Option String
  Priority : Option String
  PMStatus : Option String
  Owner : Option String
  Notes : Option String
deriving DecidableEq, Repr

/-- Python (value or "") on an optional cell. -/
def orBlank (v : Option String) : String := v.getD ""

/-- The stripped interval type, (row.get("IntervalType") or "").strip(). -/
def intervalTypeOf (r : Row) : String := pyStrip (orBlank r.IntervalType)

/-- The stripped PM status with the "Active" default,
(row.get("PMStatus") or "Active").strip(); an absent or empty cell falls back
to "Active" because both are falsy in Python. -/
def pmState (r : Row) : String :=
  pyStrip (match r.PMStatus with
    | none => "Active"
    | some s => if s = "" then "Active" else s)

/-- The source's compute_next_due: derive the next due date (time-based
rules) or next due meter (meter rule) from the recurrence definition and the
last-service checkpoint; today stands for date.today(), passed explicitly,
and the source's local variables t, iv, ld, lm, cm and base are inlined. -/
def compute_next_due (today : Date) (row : Row) : Option Date × Option Int :=
  if intervalTypeOf row = "Days" ∨ intervalTypeOf row = "Weeks"
      ∨ intervalTypeOf row = "Months" then
    match safe_int row.IntervalValue with
    | none => (none, none)
    | some n =>
      if n ≤ 0 then (none, none)
      else if intervalTypeOf row = "Days" then
        (some (addDays ((parse_date row.LastDoneDate).getD today) n.toNat), none)
      else if intervalTypeOf row = "Weeks" then
        (some (addDays ((parse_date row.LastDoneDate).getD today) (7 * n.toNat)), none)
      else (some (addMonths ((parse_date row.LastDoneDate).getD today) n.toNat), none)
  else if intervalTypeOf row = "Meter" then
    match safe_int row.IntervalValue with
    | none => (none, none)
    | some n =>
      if n ≤ 0 then (none, none)
      else
        match safe_int row.LastMeter with
        | none => (none, some ((safe_int row.CurrentMeter).getD 0 + n))
        | some l => (none, some (l + n))
  else (none, none)

/-- Steps 1 to 3 of the source's compute_status, before the pm-status
override: classify urgency from the stored due point and today (or the
current meter), yielding the state and the signed remaining days or meter
units (the source's days_left and meters_left are inlined). -/
def urgency_status (today : Date) (row : Row) (due_soon_days meter_soon : Int) :
    String × Option Int :=
  if intervalTypeOf row = "Days" ∨ intervalTypeOf row = "Weeks"
      ∨ intervalTypeOf row = "Months" then
    match parse_date row.NextDueDate with
    | none => ("Unknown", none)
    | some nd =>
      (if (toordinal nd : Int) - (toordinal today : Int) < 0 then "Overdue"
       else if (toordinal nd : Int) - (toordinal today : Int) ≤ due_soon_days then "Due Soon"
       else "OK",
       some ((toordinal nd : Int) - (toordinal today : Int)))
  else if intervalTypeOf row = "Meter" then
    match safe_int row.NextDueMeter, safe_int row.CurrentMeter with
    | some ndm, some cm =>
      (if ndm - cm < 0 then "Overdue"
       else if ndm - cm ≤ meter_soon then "Due Soon" else "OK", some (ndm - cm))
    | _, _ => ("Unknown", none)
  else ("Unknown", none)

/-- The source's compute_status: the urgency classification of steps 1 to 3,
with the state replaced by the stripped pm status when that is Paused or
Retired (the delta is reported unchanged). -/
def compute_status (today : Date) (row : Row) (due_soon_days meter_soon : Int) :
    String × Option Int :=
  (if pmState row = "Paused" ∨ pmState row = "Retired" then pmState row
   else (urgency_status today row due_soon_days meter_soon).1,
   (urgency_status today row due_soon_days meter_soon).2)

/-- The six KPI tile labels, in the order of the counts dictionary. -/
def sixStates : List String := ["Overdue", "Due Soon", "OK", "Unknown", "Paused", "Retired"]

/-- The KPI aggregation loop of the dashboard: fold over the full, unfiltered
collection, incrementing the bucket of each record's classification state
(counts start at zero and counts.get(s, 0) + 1 is the increment). -/
def kpiCounts (today : Date) (rows : List Row) (due_soon_days meter_soon : Int) :
    String → Nat :=
  rows.foldl
    (fun acc r s =>
      if s = (compute_status today r due_soon_days meter_soon).1 then acc s + 1 else acc s)
    (fun _ => 0)

/-- Modelled from the spec: the Bulk Meter Update handler (its code lies past
the end of the provided source file) overwrites the CurrentMeter field of a
selected record and nothing else. -/
def set_current_meter (r : Row) (v : Option String) : Row :=
  { r with CurrentMeter := v }

/-- Substitution of the PMStatus field, used to state that classification
ignores everything about that field except the override test. -/
def setPMStatus (r : Row) (v : Option String) : Row :=
  { r with PMStatus := v }

/-- The record updates of the Log Completion handler that precede the
recomputation of the derived fields: the completion date is stored, and for a
row whose stored interval type is exactly "Meter", a non-blank completion
meter reading is stored (stripped) as both the last and the current meter. -/
def postRecord (r : Row) (D : Date) (mstr : String) : Row :=
  let r1 := { r with LastDoneDate := some (dateToStr D) }
  if r1.IntervalType = some "Meter" ∧ pyStrip mstr ≠ "" then
    { r1 with LastMeter := some (pyStrip mstr), CurrentMeter := some (pyStrip mstr) }
  else r1

/-- The source's Log Completion handler on the collection: update the
selected record, recompute its derived fields with compute_next_due, and
store them (formatted date or empty string, meter number or empty string). -/
def log_completion (today : Date) (rows : List Row) (i : Nat) (D : Date)
    (mstr : String) : List Row :=
  match rows[i]? with
  | none => rows
  | some r =>
    rows.set i
      { postRecord r D mstr with
        NextDueDate := some (match (compute_next_due today (postRecord r D mstr)).1 with
          | some d => dateToStr d
          | none => "")
        NextDueMeter := some (match (compute_next_due today (postRecord r D mstr)).2 with
          | some n => intToString n
          | none => "") }

/-! Statements of the specification properties about the functions above,
named here so that the theorems below and their concrete instantiations can
share them. -/

/-- Three-way classification law for compute_status: on a date-based record
the state is decided by the sign of the day delta and the due-soon cutoff
(inclusive on both ends), with Unknown on a missing due date; on a meter
record the same law holds for the meter delta, with Unknown when either
meter value is missing.  The reported delta is the raw signed difference. -/
def classifyLaw (today : Date) (row : Row) (dsd ms : Int) : Prop :=
  ((intervalTypeOf row = "Days" ∨ intervalTypeOf row = "Weeks"
      ∨ intervalTypeOf row = "Months") →
    (parse_date row.NextDueDate = none →
      compute_status today row dsd ms = ("Unknown", none)) ∧
    (∀ nd, parse_date row.NextDueDate = some nd →
      (compute_status today row dsd ms).2
          = some ((toordinal nd : Int) - (toordinal today : Int)) ∧
      ((compute_status today row dsd ms).1 = "Overdue"
          ↔ (toordinal nd : Int) - (toordinal today : Int) < 0) ∧
      ((compute_status today row dsd ms).1 = "Due Soon"
          ↔ 0 ≤ (toordinal nd : Int) - (toordinal today : Int)
            ∧ (toordinal nd : Int) - (toordinal today : Int) ≤ dsd) ∧
      ((compute_status today row dsd ms).1 = "OK"
          ↔ dsd < (toordinal nd : Int) - (toordinal today : Int)))) ∧
  (intervalTypeOf row = "Meter" →
    ((safe_int row.NextDueMeter = none ∨ safe_int row.CurrentMeter = none) →
      compute_status today row dsd ms = ("Unknown", none)) ∧
    (∀ ndm cm, safe_int row.NextDueMeter = some ndm → safe_int row.CurrentMeter = some cm →
      (compute_status today row dsd ms).2 = some (ndm - cm) ∧
      ((compute_status today row dsd ms).1 = "Overdue" ↔ ndm - cm < 0) ∧
      ((compute_status today row dsd ms).1 = "Due Soon"
          ↔ 0 ≤ ndm - cm ∧ ndm - cm ≤ ms) ∧
      ((compute_status today row dsd ms).1 = "OK" ↔ ms < ndm - cm)))

/-- The dates Python's bounded date type can return: a real calendar date
with year at most 9999.  Where the model's total date arithmetic would leave
this range the source raises instead of returning, so results are asserted
only under this guard. -/
def pyDateOk (d : Date) : Prop := validDate d = true ∧ d.year ≤ 9999

/-- The last-done-date values on which the model's strict parser agrees with
the source's parser chain: a value that parses strictly, an absent cell, or
the empty string (the source returns None for both immediately).  A present
non-empty value the strict parser rejects is excluded, because the source's
pandas fallback may still read it in another layout. -/
def lastDoneOk (row : Row) : Prop :=
  parse_date row.LastDoneDate ≠ none ∨ row.LastDoneDate = none
    ∨ row.LastDoneDate = some ""

/-- Due-point law for the time-based rules: no positive interval means both
derived fields absent; with a positive interval and the computed date inside
Python's date range, the source returns that many days, weeks (seven days
each) or calendar months past the last-done date (today when absent), the
day count of the result growing by exactly the interval for Days and Weeks,
and the month index growing by the interval with the day-of-month clamped
for Months; the meter field stays absent. -/
def timeRuleLaw (today : Date) (row : Row) : Prop :=
  (safe_int row.IntervalValue = none → compute_next_due today row = (none, none)) ∧
  (∀ n, safe_int row.IntervalValue = some n → n ≤ 0 →
    compute_next_due today row = (none, none)) ∧
  (∀ n, safe_int row.IntervalValue = some n → 0 < n →
    ∀ base, (parse_date row.LastDoneDate).getD today = base →
      (intervalTypeOf row = "Days" →
        (pyDateOk (addDays base n.toNat) →
          compute_next_due today row = (some (addDays base n.toNat), none)) ∧
        (validDate base = true →
          validDate (addDays base n.toNat) = true ∧
          (toordinal (addDays base n.toNat) : Int) = toordinal base + n)) ∧
      (intervalTypeOf row = "Weeks" →
        (pyDateOk (addDays base (7 * n.toNat)) →
          compute_next_due today row = (some (addDays base (7 * n.toNat)), none)) ∧
        (validDate base = true →
          validDate (addDays base (7 * n.toNat)) = true ∧
          (toordinal (addDays base (7 * n.toNat)) : Int) = toordinal base + 7 * n)) ∧
      (intervalTypeOf row = "Months" →
        (pyDateOk (addMonths base n.toNat) →
          compute_next_due today row = (some (addMonths base n.toNat), none)) ∧
        (addMonths base n.toNat).day
            = min base.day
                (daysInMonth (addMonths base n.toNat).year (addMonths base n.toNat).month) ∧
        (validDate base = true →
          validDate (addMonths base n.toNat) = true ∧
          monthIndex (addMonths base n.toNat) = monthIndex base + n.toNat)))

/-- Due-point law for the meter rule: no positive interval means both derived
fields absent; with a positive interval the next due meter is last meter plus
interval when the last meter is present (and overwriting the current meter
does not change the result), else current meter (or zero) plus interval; the
date field stays absent. -/
def meterRuleLaw (today : Date) (row : Row) : Prop :=
  (safe_int row.IntervalValue = none → compute_next_due today row = (none, none)) ∧
  (∀ n, safe_int row.IntervalValue = some n → n ≤ 0 →
    compute_next_due today row = (none, none)) ∧
  (∀ n, safe_int row.IntervalValue = some n → 0 < n →
    (∀ l, safe_int row.LastMeter = some l →
      compute_next_due today row = (none, some (l + n)) ∧
      ∀ v, compute_next_due today (set_current_meter row v) = (none, some (l + n))) ∧
    (safe_int row.LastMeter = none →
      compute_next_due today row = (none, some ((safe_int row.CurrentMeter).getD 0 + n))))

/-- Frame law for the bulk meter update: overwriting only the current meter
leaves both derived fields of compute_next_due unchanged. -/
def currentMeterFrame (today : Date) (row : Row) : Prop :=
  ∀ v, compute_next_due today (set_current_meter row v) = compute_next_due today row

/-- Override law: the state is exactly the stripped pm status, the delta is
the one computed by steps 1 to 3. -/
def overrideLaw (today : Date) (row : Row) (dsd ms : Int) : Prop :=
  compute_status today row dsd ms = (pmState row, (urgency_status today row dsd ms).2)

/-- No-override law: classification coincides with the plain urgency
classification, and an absent pm status behaves exactly like "Active". -/
def noOverrideLaw (today : Date) (row : Row) (dsd ms : Int) : Prop :=
  compute_status today row dsd ms = urgency_status today row dsd ms ∧
  compute_status today (setPMStatus row none) dsd ms
    = compute_status today (setPMStatus row (some "Active")) dsd ms

/-- Log-completion law: the handler keeps the collection length, touches no
other record, stores the completion date (and, for a meter row with a
non-blank reading, that reading as both meters), leaves every other stored
column of the record unchanged, and stores derived fields that parse back to
exactly compute_next_due of the post-update record. -/
def logCompletionLaw (today : Date) (rows : List Row) (i : Nat) (D : Date)
    (mstr : String) (r : Row) : Prop :=
  (log_completion today rows i D mstr).length = rows.length ∧
  (∀ j, j ≠ i → (log_completion today rows i D mstr)[j]? = rows[j]?) ∧
  ∃ r', (log_completion today rows i D mstr)[i]? = some r' ∧
    r'.LastDoneDate = some (dateToStr D) ∧
    ((r.IntervalType = some "Meter" ∧ pyStrip mstr ≠ "") →
      r'.LastMeter = some (pyStrip mstr) ∧ r'.CurrentMeter = some (pyStrip mstr)) ∧
    (¬(r.IntervalType = some "Meter" ∧ pyStrip mstr ≠ "") →
      r'.LastMeter = r.LastMeter ∧ r'.CurrentMeter = r.CurrentMeter) ∧
    r'.Site = r.Site ∧ r'.AssetID = r.AssetID ∧ r'.AssetName = r.AssetName ∧
    r'.Component = r.Component ∧ r'.PMTask = r.PMTask ∧
    r'.IntervalType = r.IntervalType ∧ r'.IntervalValue = r.IntervalValue ∧
    r'.Priority = r.Priority ∧ r'.PMStatus = r.PMStatus ∧ r'.Owner = r.Owner ∧
    r'.Notes = r.Notes ∧
    parse_date r'.NextDueDate = (compute_next_due today r').1 ∧
    safe_int r'.NextDueMeter = (compute_next_due today r').2

/-- KPI law: every bucket of the fold equals the number of records of the
whole collection classified with that state, every record's state is one of
the six tile labels, and the six tile counts sum to the collection size. -/
def kpiLaw (today : Date) (rows : List Row) (dsd ms : Int) : Prop :=
  (∀ s, kpiCounts today rows dsd ms s
      = (rows.filter (fun r => (compute_status today r dsd ms).1 == s)).length) ∧
  (sixStates.map (kpiCounts today rows dsd ms)).sum = rows.length ∧
  ∀ r, r ∈ rows → (compute_status today r dsd ms).1 ∈ sixStates

/-- Degradation law: malformed or missing fields degrade to absent values and
an Unknown urgency instead of failing; an unrecognized interval type gives
absent derived fields and the state Unknown, except that a Paused or Retired
pm status still overrides the state; a non-numeric interval gives absent
derived fields; an absent or empty last-done date falls back to today as the
recurrence base, asserted only inside Python's date range (outside it the
source's uncaught date arithmetic raises rather than degrades); a missing
meter value degrades the meter classification to Unknown. -/
def degradationLaw (today : Date) (row : Row) (dsd ms : Int) : Prop :=
  (intervalTypeOf row ≠ "Days" → intervalTypeOf row ≠ "Weeks" →
   intervalTypeOf row ≠ "Months" → intervalTypeOf row ≠ "Meter" →
    compute_next_due today row = (none, none) ∧
    urgency_status today row dsd ms = ("Unknown", none) ∧
    (pmState row ≠ "Paused" → pmState row ≠ "Retired" →
      compute_status today row dsd ms = ("Unknown", none)) ∧
    ((pmState row = "Paused" ∨ pmState row = "Retired") →
      compute_status today row dsd ms = (pmState row, none))) ∧
  (safe_int row.IntervalValue = none → compute_next_due today row = (none, none)) ∧
  ((intervalTypeOf row = "Days" ∨ intervalTypeOf row = "Weeks"
      ∨ intervalTypeOf row = "Months") →
    (parse_date row.NextDueDate = none →
      urgency_status today row dsd ms = ("Unknown", none)) ∧
    (∀ n, safe_int row.IntervalValue = some n → 0 < n →
      (row.LastDoneDate = none ∨ row.LastDoneDate = some "") →
      pyDateOk (if intervalTypeOf row = "Days" then addDays today n.toNat
                else if intervalTypeOf row = "Weeks" then addDays today (7 * n.toNat)
                else addMonths today n.toNat) →
      compute_next_due today row
        = (some (if intervalTypeOf row = "Days" then addDays today n.toNat
                 else if intervalTypeOf row = "Weeks" then addDays today (7 * n.toNat)
                 else addMonths today n.toNat), none))) ∧
  (intervalTypeOf row = "Meter" →
    (safe_int row.NextDueMeter = none ∨ safe_int row.CurrentMeter = none) →
    urgency_status today row dsd ms = ("Unknown", none))

/-- Numeric-parser boundary law: safe_int yields an absent value exactly for
an absent cell, a blank string, a string float() rejects, the special nan
and infinity words, and finite literals overflowing the double range to an
infinity; every other string float() accepts — fractional and
underscore-grouped literals included — yields a number, and fractional
values are truncated toward zero (6.9 used as 6, -6.9 as -6) rather than
rejected. -/
def safeIntBoundaryLaw : Prop :=
  (∀ v, safe_int_none v = true ↔
    (v = none ∨ ∃ s, v = some s ∧
      (pyStrip s = "" ∨ pyFloatLex s = none ∨ pyFloatLex s = some PyLit.special ∨
        ∃ neg m e, pyFloatLex s = some (PyLit.finite neg m e) ∧
          finiteOverflows m e = true))) ∧
  (∀ s neg m e, pyFloatLex s = some (PyLit.finite neg m e) →
    finiteOverflows m e = false → pyStrip s ≠ "" →
    safe_int_none (some s) = false) ∧
  safe_int_none (some "1_0") = false ∧
  safe_int_none (some "6.9") = false ∧
  safe_int (some "6.9") = some 6 ∧ safe_int (some "-6.9") = some (-6) ∧
  safe_int (some " 1585 ") = some 1585 ∧
  safe_int_none none = true ∧ safe_int_none (some "   ") = true ∧
  safe_int_none (some "nan") = true ∧ safe_int_none (some "-inf") = true ∧
  safe_int_none (some "abc") = true

/-! Concrete data used by the witness instantiations. -/

/-- Sample processing date. -/
def today0 : Date := ⟨2026, 10, 12⟩

/-- Row with every cell absent. -/
def emptyRow : Row :=
  ⟨none, none, none, none, none, none, none, none, none, none, none, none, none,
   none, none, none⟩

/-- Date-based sample row with a stored due date close to today0. -/
def rowDue : Row :=
  { emptyRow with
    IntervalType := some "Days"
    IntervalValue := some "30"
    NextDueDate := some "2026-10-20"
    PMStatus := some "Active" }

/-- Meter-based sample row, the one of the specification scenario. -/
def rowMeter : Row :=
  { emptyRow with
    IntervalType := some "Meter"
    IntervalValue := some "200"
    LastDoneDate := some "2026-08-12"
    LastMeter := some "1400"
    CurrentMeter := some "1585"
    NextDueMeter := some "1600"
    PMStatus := some "Active" }

/-- Months-based sample row. -/
def rowMonths : Row :=
  { emptyRow with
    IntervalType := some "Months"
    IntervalValue := some "6"
    LastDoneDate := some "2026-03-15"
    PMStatus := some "Active" }

/-- Meter row with no last meter, whose due point is based on the current
meter. -/
def rowNoLast : Row :=
  { emptyRow with
    IntervalType := some "Meter"
    IntervalValue := some "100"
    CurrentMeter := some "50" }

/-- Paused date-based row. -/
def rowPaused : Row :=
  { emptyRow with
    IntervalType := some "Days"
    IntervalValue := some "30"
    NextDueDate := some "2026-10-01"
    PMStatus := some "Paused" }

/-- Row with an unrecognized interval type and a Paused status. -/
def rowBogus : Row :=
  { emptyRow with IntervalType := some "Bogus", PMStatus := some "Paused" }

/-- Sample collection for the log-completion instantiation. -/
def rowsLog : List Row := [rowMeter, rowMonths]

/-- Sample collection for the KPI instantiation. -/
def rowsKpi : List Row := [rowDue, rowMeter, rowPaused, rowBogus]

/-! Basic facts about digits, digit runs and printing. -/

lemma natDigitsAux_zero (fuel : Nat) : natDigitsAux fuel 0 = [] := by
  cases fuel <;> rfl

lemma digitChar_isDigit {d : Nat} (h : d < 10) : (digitChar d).isDigit = true := by
  interval_cases d <;> decide

lemma digitChar_toNat {d : Nat} (h : d < 10) : (digitChar d).toNat - 48 = d := by
  interval_cases d <;> decide

lemma digitChar_not_ws {d : Nat} (h : d < 10) : pyWhitespace (digitChar d) = false := by
  interval_cases d <;> decide

lemma digitChar_ne {d : Nat} (h : d < 10) :
    digitChar d ≠ '-' ∧ digitChar d ≠ '+' ∧ digitChar d ≠ '.' ∧ digitChar d ≠ 'e'
      ∧ digitChar d ≠ 'E' := by
  interval_cases d <;> decide

lemma takeDigits_stop (l : List Char) (h : ∀ c, l.head? = some c → c.isDigit = false)
    (acc cnt : Nat) : takeDigits l acc cnt = (acc, cnt, l) := by
  cases l with
  | nil => rfl
  | cons c cs => simp [takeDigits, h c rfl]

lemma takeDigits_digitsRun (ds : List Nat) :
    ∀ (rest : List Char) (_ : ∀ d ∈ ds, d < 10)
      (_ : ∀ c, rest.head? = some c → c.isDigit = false) (acc cnt : Nat),
      takeDigits (ds.map digitChar ++ rest) acc cnt
        = (ds.foldl (fun a d => 10 * a + d) acc, cnt + ds.length, rest) := by
  induction ds with
  | nil => intro rest _ hrest acc cnt; simpa using takeDigits_stop rest hrest acc cnt
  | cons d ds ih =>
    intro rest hds hrest acc cnt
    have hd : d < 10 := hds d (by simp)
    simp only [List.map_cons, List.cons_append, takeDigits, digitChar_isDigit hd, if_true,
      digitChar_toNat hd, List.append_eq]
    rw [ih rest (fun x hx => hds x (by simp [hx])) hrest]
    simp only [List.foldl_cons, List.length_cons]
    have : cnt + 1 + ds.length = cnt + (ds.length + 1) := by omega
    rw [this]

lemma foldl_base10_reverse (L : List Nat) :
    ∀ a : Nat, (L.reverse).foldl (fun x d => 10 * x + d) a
      = a * 10 ^ L.length + Nat.ofDigits 10 L := by
  induction L with
  | nil => intro a; simp
  | cons d L ih =>
    intro a
    rw [List.reverse_cons, List.foldl_append, ih]
    simp only [List.foldl_cons, List.foldl_nil, List.length_cons, Nat.ofDigits_cons]
    ring

lemma natChars_eq {n : Nat} (h : 1 ≤ n) :
    natChars n = ((Nat.digits 10 n).reverse).map digitChar := by
  have main : ∀ fuel m, 1 ≤ m → m ≤ fuel →
      natDigitsAux fuel m = ((Nat.digits 10 m).reverse).map digitChar := by
    intro fuel
    induction fuel with
    | zero => intro m h1 h2; omega
    | succ fuel ih =>
      intro m h1 h2
      obtain ⟨k, rfl⟩ : ∃ k, m = k + 1 := ⟨m - 1, by omega⟩
      rw [show natDigitsAux (fuel + 1) (k + 1)
            = natDigitsAux fuel ((k + 1) / 10) ++ [digitChar ((k + 1) % 10)] from rfl]
      rw [Nat.digits_def' (by norm_num : 1 < 10) (by omega : 0 < k + 1)]
      rw [List.reverse_cons, List.map_append, List.map_cons, List.map_nil]
      by_cases hq : (k + 1) / 10 = 0
      · rw [hq, natDigitsAux_zero, Nat.digits_zero]
        simp
      · rw [ih ((k + 1) / 10) (by omega) (by
          have := Nat.div_lt_self (by omega : 0 < k + 1) (by norm_num : 1 < 10)
          omega)]
  unfold natChars
  rw [if_neg (by omega)]
  exact main n n h le_rfl

lemma natChars_zero : natChars 0 = ['0'] := rfl

lemma natChars_shape (n : Nat) : ∀ c ∈ natChars n, ∃ d, d < 10 ∧ c = digitChar d := by
  intro c hc
  by_cases h : n = 0
  · subst h
    simp only [natChars_zero, List.mem_singleton] at hc
    exact ⟨0, by norm_num, by simpa using hc⟩
  · rw [natChars_eq (by omega)] at hc
    simp only [List.mem_map, List.mem_reverse] at hc
    obtain ⟨d, hd, rfl⟩ := hc
    exact ⟨d, Nat.digits_lt_base (by norm_num) hd, rfl⟩

lemma natChars_ne_nil (n : Nat) : natChars n ≠ [] := by
  by_cases h : n = 0
  · subst h; simp [natChars_zero]
  · rw [natChars_eq (by omega)]
    simp [Nat.digits_ne_nil_iff_ne_zero, h]

lemma natChars_length_le {n k : Nat} (hk : 1 ≤ k) (h : n < 10 ^ k) :
    (natChars n).length ≤ k := by
  by_cases h0 : n = 0
  · subst h0; simpa [natChars_zero] using hk
  · rw [natChars_eq (by omega)]
    simp only [List.length_map, List.length_reverse]
    rw [Nat.digits_len 10 n (by norm_num) h0]
    have := (Nat.lt_pow_iff_log_lt (by norm_num : 1 < 10) h0).mp h
    omega

lemma takeDigits_natChars (n : Nat) (rest : List Char)
    (hrest : ∀ c, rest.head? = some c → c.isDigit = false) (cnt : Nat) :
    takeDigits (natChars n ++ rest) 0 cnt = (n, cnt + (natChars n).length, rest) := by
  by_cases h : n = 0
  · subst h
    rw [natChars_zero]
    simp only [List.singleton_append]
    rw [show takeDigits ('0' :: rest) 0 cnt = takeDigits rest (10 * 0 + ('0'.toNat - 48)) (cnt + 1)
      from by simp [takeDigits]]
    rw [takeDigits_stop rest hrest]
    simp
  · rw [natChars_eq (by omega)]
    rw [takeDigits_digitsRun _ rest
      (fun d hd => Nat.digits_lt_base (by norm_num) (List.mem_reverse.mp hd)) hrest 0 cnt]
    rw [foldl_base10_reverse, Nat.ofDigits_digits]
    simp

lemma takeDigits_zeros (k : Nat) :
    ∀ (l : List Char) (cnt : Nat),
      takeDigits (List.replicate k '0' ++ l) 0 cnt = takeDigits l 0 (cnt + k) := by
  induction k with
  | zero => intro l cnt; simp
  | succ k ih =>
    intro l cnt
    rw [List.replicate_succ, List.cons_append]
    rw [show takeDigits ('0' :: (List.replicate k '0' ++ l)) 0 cnt
          = takeDigits (List.replicate k '0' ++ l) (10 * 0 + ('0'.toNat - 48)) (cnt + 1)
      from by simp [takeDigits]]
    rw [show 10 * 0 + ('0'.toNat - 48) = 0 from by decide]
    rw [ih l (cnt + 1)]
    have : cnt + 1 + k = cnt + (k + 1) := by omega
    rw [this]

lemma takeDigits_padChars {w n : Nat} (rest : List Char)
    (hrest : ∀ c, rest.head? = some c → c.isDigit = false)
    (hlen : (natChars n).length ≤ w) (cnt : Nat) :
    takeDigits (padChars w n ++ rest) 0 cnt = (n, cnt + w, rest) := by
  unfold padChars
  rw [List.append_assoc, takeDigits_zeros, takeDigits_natChars n rest hrest]
  have : cnt + (w - (natChars n).length) + (natChars n).length = cnt + w := by omega
  rw [this]

/-! Facts about stripping and string construction. -/

lemma dropWhile_eq_self_of {p : Char → Bool} (l : List Char)
    (h : ∀ c ∈ l, p c = false) : l.dropWhile p = l := by
  cases l with
  | nil => rfl
  | cons c cs => simp [List.dropWhile, h c (by simp)]

lemma pyStrip_mk_of_no_ws (l : List Char) (h : ∀ c ∈ l, pyWhitespace c = false) :
    pyStrip (String.mk l) = String.mk l := by
  unfold pyStrip
  rw [show (String.mk l).data = l from rfl]
  rw [dropWhile_eq_self_of l h]
  rw [dropWhile_eq_self_of l.reverse (fun c hc => h c (List.mem_reverse.mp hc))]
  simp

lemma String.mk_ne_empty {l : List Char} (h : l ≠ []) : String.mk l ≠ "" := by
  intro hcontra
  exact h (by simpa using congrArg String.data hcontra)

/-! Basic calendar facts. -/

lemma daysInMonth_pos (y m : Nat) : 1 ≤ daysInMonth y m := by
  unfold daysInMonth
  split_ifs <;> omega

lemma daysInMonth_le (y m : Nat) : daysInMonth y m ≤ 31 := by
  unfold daysInMonth
  split_ifs <;> omega

/-! Printing a date and parsing it back. -/

lemma head_not_digit_dash (R : List Char) :
    ∀ c, (('-' :: R : List Char)).head? = some c → c.isDigit = false := by
  intro c h
  simp only [List.head?_cons, Option.some.injEq] at h
  subst h
  decide

lemma dateChars_ne_nil (d : Date) : dateChars d ≠ [] := by
  unfold dateChars
  simp

lemma parse_print_date {d : Date} (hv : validDate d = true) (hy : d.year ≤ 9999) :
    parse_date (some (dateToStr d)) = some d := by
  have hv' := hv
  simp only [validDate, decide_eq_true_eq] at hv'
  obtain ⟨hy1, hm1, hm2, hd1, hd2⟩ := hv'
  have hylen : (natChars d.year).length ≤ 4 := natChars_length_le (by norm_num) (by omega)
  have hmlen : (natChars d.month).length ≤ 2 := natChars_length_le (by norm_num) (by omega)
  have hdlen : (natChars d.day).length ≤ 2 := by
    have h31 : d.day ≤ 31 := le_trans hd2 (daysInMonth_le _ _)
    exact natChars_length_le (by norm_num) (by omega)
  rw [show parse_date (some (dateToStr d))
        = if dateToStr d = "" then none else pyStrptimeDate (dateToStr d) from rfl]
  unfold dateToStr
  rw [if_neg (String.mk_ne_empty (dateChars_ne_nil d))]
  unfold pyStrptimeDate
  rw [show (String.mk (dateChars d)).data = dateChars d from rfl]
  unfold dateChars
  rw [takeDigits_padChars (w := 4) (n := d.year)
    ('-' :: (padChars 2 d.month ++ '-' :: padChars 2 d.day)) (head_not_digit_dash _) hylen 0]
  rw [show dateStage1 (d.year, 0 + 4, '-' :: (padChars 2 d.month ++ '-' :: padChars 2 d.day))
        = dateStage2 d.year (0 + 4)
            (takeDigits (padChars 2 d.month ++ '-' :: padChars 2 d.day) 0 0) from rfl]
  rw [takeDigits_padChars (w := 2) (n := d.month)
    ('-' :: padChars 2 d.day) (head_not_digit_dash _) hmlen 0]
  rw [show dateStage2 d.year (0 + 4) (d.month, 0 + 2, '-' :: padChars 2 d.day)
        = dateStage3 d.year (0 + 4) d.month (0 + 2) (takeDigits (padChars 2 d.day) 0 0)
      from rfl]
  rw [show padChars 2 d.day = padChars 2 d.day ++ [] from (List.append_nil _).symm,
    takeDigits_padChars (w := 2) (n := d.day) [] (by intro c h; simp at h) hdlen 0]
  rw [show dateStage3 d.year (0 + 4) d.month (0 + 2) (d.day, 0 + 2, [])
        = if ([] : List Char) = [] ∧ 0 + 4 = 4 ∧ 1 ≤ 0 + 2 ∧ 0 + 2 ≤ 2 ∧ 1 ≤ 0 + 2
            ∧ 0 + 2 ≤ 2 ∧ 1 ≤ d.year ∧ 1 ≤ d.month ∧ d.month ≤ 12 ∧ 1 ≤ d.day
            ∧ d.day ≤ daysInMonth d.year d.month
          then some ⟨d.year, d.month, d.day⟩ else none from rfl]
  rw [if_pos ⟨rfl, by omega, by omega, by omega, by omega, by omega, hy1, hm1, hm2, hd1, hd2⟩]

/-! Printing an integer and parsing it back through safe_int. -/

lemma natChars_no_ws (m : Nat) : ∀ c ∈ natChars m, pyWhitespace c = false := by
  intro c hc
  obtain ⟨d, hd, rfl⟩ := natChars_shape m c hc
  exact digitChar_not_ws hd

lemma takeDigits_natChars_alone (m : Nat) :
    takeDigits (natChars m) 0 0 = (m, 0 + (natChars m).length, []) := by
  conv_lhs => rw [← List.append_nil (natChars m)]
  exact takeDigits_natChars m [] (by intro c h; simp at h) 0

lemma pyFloatAux_natChars (m : Nat) (neg : Bool) :
    pyFloatAux (neg, natChars m) = some (neg, m, (0 : Int)) := by
  rw [show pyFloatAux (neg, natChars m) = pyFloatAux2 neg (takeDigits (natChars m) 0 0)
    from rfl]
  rw [takeDigits_natChars_alone]
  rw [show pyFloatAux2 neg (m, 0 + (natChars m).length, [])
        = pyFloatAux3 neg m (0 + (natChars m).length) (fracSplit []) from rfl]
  rw [show fracSplit [] = ((0 : Nat), (0 : Nat), ([] : List Char)) from rfl]
  rw [show pyFloatAux3 neg m (0 + (natChars m).length) (0, 0, [])
        = if 0 + (natChars m).length + 0 = 0 then none
          else expSplitParts (m * 10 ^ 0 + 0) 0 neg [] from rfl]
  rw [if_neg (by
    have hne := natChars_ne_nil m
    have : (natChars m).length ≠ 0 := fun h => hne (List.eq_nil_of_length_eq_zero h)
    omega)]
  rw [show expSplitParts (m * 10 ^ 0 + 0) 0 neg []
        = some (neg, m * 10 ^ 0 + 0, -((0 : Nat) : Int)) from rfl]
  norm_num

lemma signSplit_of_ne {c : Char} (t : List Char) (h1 : c ≠ '-') (h2 : c ≠ '+') :
    signSplit (c :: t) = (false, c :: t) := by
  unfold signSplit
  split
  · next heq => simp only [List.cons.injEq] at heq; exact absurd heq.1 h1
  · next heq => simp only [List.cons.injEq] at heq; exact absurd heq.1 h2
  · rfl

lemma signSplit_natChars (m : Nat) : signSplit (natChars m) = (false, natChars m) := by
  cases hnc : natChars m with
  | nil => exact absurd hnc (natChars_ne_nil m)
  | cons c t =>
    obtain ⟨d0, hd0, rfl⟩ := natChars_shape m c (hnc ▸ List.mem_cons_self c t)
    exact signSplit_of_ne t (digitChar_ne hd0).1 (digitChar_ne hd0).2.1

lemma ratTrunc_intCast (k : ℤ) : ratTrunc (k : ℚ) = k := by
  unfold ratTrunc
  rw [Rat.num_intCast, Rat.den_intCast]
  simp

lemma pyFloatParts_intChars (n : ℤ) :
    pyFloatParts (String.mk (intChars n))
      = some (if n < 0 then (true, n.natAbs, (0 : Int)) else (false, n.toNat, (0 : Int))) := by
  unfold pyFloatParts
  by_cases hn : n < 0
  · rw [show intChars n = '-' :: natChars n.natAbs from by unfold intChars; rw [if_pos hn]]
    rw [pyStrip_mk_of_no_ws _ (by
      intro c hc
      rcases List.mem_cons.mp hc with h | h
      · subst h; decide
      · exact natChars_no_ws _ c h)]
    rw [show (String.mk ('-' :: natChars n.natAbs)).data = '-' :: natChars n.natAbs from rfl]
    rw [show signSplit ('-' :: natChars n.natAbs) = (true, natChars n.natAbs) from rfl]
    rw [pyFloatAux_natChars, if_pos hn]
  · rw [show intChars n = natChars n.toNat from by unfold intChars; rw [if_neg hn]]
    rw [pyStrip_mk_of_no_ws _ (natChars_no_ws _)]
    rw [show (String.mk (natChars n.toNat)).data = natChars n.toNat from rfl]
    rw [signSplit_natChars, pyFloatAux_natChars, if_neg hn]

lemma safe_int_intToString (n : ℤ) : safe_int (some (intToString n)) = some n := by
  rw [show safe_int (some (intToString n))
        = if pyStrip (intToString n) = "" then none
          else Option.map truncParts (pyFloatParts (intToString n)) from rfl]
  unfold intToString
  have hne : intChars n ≠ [] := by
    unfold intChars
    split_ifs
    · simp
    · exact natChars_ne_nil _
  have hnws : ∀ c ∈ intChars n, pyWhitespace c = false := by
    intro c hc
    unfold intChars at hc
    by_cases h : n < 0
    · rw [if_pos h] at hc
      rcases List.mem_cons.mp hc with h1 | h1
      · subst h1; decide
      · exact natChars_no_ws _ c h1
    · rw [if_neg h] at hc
      exact natChars_no_ws _ c hc
  rw [pyStrip_mk_of_no_ws _ hnws, if_neg (String.mk_ne_empty hne)]
  rw [pyFloatParts_intChars]
  by_cases hn : n < 0
  · rw [if_pos hn]
    rw [show Option.map truncParts (some (true, n.natAbs, (0 : Int)))
          = some (truncParts (true, n.natAbs, (0 : Int))) from rfl]
    rw [show truncParts (true, n.natAbs, (0 : Int))
          = -((n.natAbs * 10 ^ (0 : Int).toNat : ℕ) : Int) from rfl]
    refine congrArg some ?_
    rw [show (0 : Int).toNat = 0 from rfl, pow_zero, mul_one]
    omega
  · rw [if_neg hn]
    rw [show Option.map truncParts (some (false, n.toNat, (0 : Int)))
          = some (truncParts (false, n.toNat, (0 : Int))) from rfl]
    rw [show truncParts (false, n.toNat, (0 : Int))
          = ((n.toNat * 10 ^ (0 : Int).toNat : ℕ) : Int) from rfl]
    refine congrArg some ?_
    rw [show (0 : Int).toNat = 0 from rfl, pow_zero, mul_one]
    omega

/-! Day-count facts: the ordinal of the successor date, day addition, and
calendar-month addition. -/

lemma isLeap_iff (y : Nat) :
    isLeap y = true ↔ (y % 4 = 0 ∧ (y % 100 ≠ 0 ∨ y % 400 = 0)) := by
  simp [isLeap]

lemma daysBeforeMonth_one (y : Nat) : daysBeforeMonth y 1 = 0 := by
  simp [daysBeforeMonth]

lemma daysBeforeMonth_succ (y m : Nat) (h : 1 ≤ m) :
    daysBeforeMonth y (m + 1) = daysBeforeMonth y m + daysInMonth y m := by
  unfold daysBeforeMonth
  rw [show m + 1 - 1 = (m - 1) + 1 from by omega, List.range_succ]
  rw [List.map_append, List.sum_append]
  simp only [List.map_cons, List.map_nil, List.sum_cons, List.sum_nil]
  rw [show m - 1 + 1 = m from by omega]
  omega

lemma daysBeforeMonth_twelve (y : Nat) :
    daysBeforeMonth y 12 = 334 + (if isLeap y then 1 else 0) := by
  unfold daysBeforeMonth
  rw [show (12 : Nat) - 1 = 11 from rfl]
  rw [show List.range 11 = [0, 1, 2, 3, 4, 5, 6, 7, 8, 9, 10] from rfl]
  cases h : isLeap y <;> simp [daysInMonth, h]

set_option maxHeartbeats 4000000 in
lemma toordinal_year_step_false (z : Nat)
    (h4 : ¬((z + 1) % 4 = 0 ∧ ((z + 1) % 100 ≠ 0 ∨ (z + 1) % 400 = 0))) :
    365 * (z + 1) + (z + 1) / 4 + (z + 1) / 400 - (z + 1) / 100 + 0 + 1
      = 365 * z + z / 4 + z / 400 - z / 100 + (334 + 0) + 31 + 1 := by
  obtain ⟨q, r, rfl, hr⟩ : ∃ q r, z = 400 * q + r ∧ r < 400 :=
    ⟨z / 400, z % 400, by omega, Nat.mod_lt _ (by omega)⟩
  interval_cases r <;> omega

set_option maxHeartbeats 4000000 in
lemma toordinal_year_step_true (z : Nat)
    (h4 : (z + 1) % 4 = 0 ∧ ((z + 1) % 100 ≠ 0 ∨ (z + 1) % 400 = 0)) :
    365 * (z + 1) + (z + 1) / 4 + (z + 1) / 400 - (z + 1) / 100 + 0 + 1
      = 365 * z + z / 4 + z / 400 - z / 100 + (334 + 1) + 31 + 1 := by
  obtain ⟨q, r, rfl, hr⟩ : ∃ q r, z = 400 * q + r ∧ r < 400 :=
    ⟨z / 400, z % 400, by omega, Nat.mod_lt _ (by omega)⟩
  interval_cases r <;> omega

set_option maxHeartbeats 1000000 in
lemma toordinal_nextDay {d : Date} (hv : validDate d = true) :
    toordinal (nextDay d) = toordinal d + 1 := by
  obtain ⟨y, m, day⟩ := d
  simp only [validDate, decide_eq_true_eq] at hv
  obtain ⟨hy1, hm1, hm2, hd1, hd2⟩ := hv
  unfold nextDay
  split_ifs with h1 h2
  · dsimp only at h1
    simp only [toordinal]
    omega
  · -- the last day of a month other than December
    dsimp only at h1 h2
    simp only [toordinal]
    rw [daysBeforeMonth_succ y m hm1]
    omega
  · -- December 31
    dsimp only at h1 h2
    have hm : m = 12 := by omega
    subst hm
    have hd : day = 31 := by
      have h31 : daysInMonth y 12 = 31 := rfl
      omega
    subst hd
    simp only [toordinal]
    rw [daysBeforeMonth_twelve, daysBeforeMonth_one]
    rcases Nat.exists_eq_add_of_le hy1 with ⟨z, rfl⟩
    rw [show 1 + z - 1 = z from by omega, show 1 + z + 1 - 1 = z + 1 from by omega]
    rcases h : isLeap (1 + z) with _ | _
    · rw [if_neg (by simp)]
      have h4 : ¬((1 + z) % 4 = 0 ∧ ((1 + z) % 100 ≠ 0 ∨ (1 + z) % 400 = 0)) := by
        intro hcon
        rw [← isLeap_iff] at hcon
        rw [h] at hcon
        exact Bool.false_ne_true hcon
      rw [show 1 + z = z + 1 from by omega] at h4
      exact toordinal_year_step_false z h4
    · have h4 : (1 + z) % 4 = 0 ∧ ((1 + z) % 100 ≠ 0 ∨ (1 + z) % 400 = 0) :=
        (isLeap_iff (1 + z)).mp h
      rw [if_pos rfl]
      rw [show 1 + z = z + 1 from by omega] at h4
      exact toordinal_year_step_true z h4

lemma validDate_nextDay {d : Date} (hv : validDate d = true) :
    validDate (nextDay d) = true := by
  obtain ⟨y, m, day⟩ := d
  simp only [validDate, decide_eq_true_eq] at hv ⊢
  obtain ⟨hy1, hm1, hm2, hd1, hd2⟩ := hv
  unfold nextDay
  split_ifs with h1 h2 <;> dsimp only at h1 ⊢ <;> try dsimp only at h2
  · exact ⟨hy1, hm1, hm2, by omega, by omega⟩
  · refine ⟨hy1, by omega, by omega, by omega, ?_⟩
    exact daysInMonth_pos _ _
  · refine ⟨by omega, by omega, by omega, by omega, ?_⟩
    exact daysInMonth_pos _ _

lemma addDays_spec (n : Nat) :
    ∀ d : Date, validDate d = true →
      validDate (addDays d n) = true ∧ toordinal (addDays d n) = toordinal d + n := by
  induction n with
  | zero => intro d hv; exact ⟨hv, rfl⟩
  | succ n ih =>
    intro d hv
    rw [show addDays d (n + 1) = addDays (nextDay d) n from rfl]
    obtain ⟨h1, h2⟩ := ih (nextDay d) (validDate_nextDay hv)
    refine ⟨h1, ?_⟩
    rw [h2, toordinal_nextDay hv]
    omega

lemma validDate_addMonths {d : Date} (hv : validDate d = true) (k : Nat) :
    validDate (addMonths d k) = true := by
  obtain ⟨y, m, day⟩ := d
  simp only [validDate, decide_eq_true_eq] at hv ⊢
  obtain ⟨hy1, hm1, hm2, hd1, hd2⟩ := hv
  simp only [addMonths]
  have hp := daysInMonth_pos ((12 * y + (m - 1) + k) / 12) ((12 * y + (m - 1) + k) % 12 + 1)
  have hq := Nat.mod_lt (12 * y + (m - 1) + k) (show 0 < 12 by omega)
  have hr : 12 ≤ 12 * y + (m - 1) + k := by omega
  have hs : 1 ≤ (12 * y + (m - 1) + k) / 12 := (Nat.one_le_div_iff (by omega)).mpr hr
  exact ⟨hs, by omega, by omega, by omega, by omega⟩

lemma monthIndex_addMonths {d : Date} (hv : validDate d = true) (k : Nat) :
    monthIndex (addMonths d k) = monthIndex d + k := by
  obtain ⟨y, m, day⟩ := d
  simp only [validDate, decide_eq_true_eq] at hv
  simp only [monthIndex, addMonths]
  have := Nat.div_add_mod (12 * y + (m - 1) + k) 12
  omega

lemma addMonths_day (d : Date) (k : Nat) :
    (addMonths d k).day
      = min d.day (daysInMonth (addMonths d k).year (addMonths d k).month) := rfl

/-! Helper facts about the classifier and the calculator. -/

lemma compute_status_override_eq (today : Date) (row : Row) (dsd ms : Int)
    (h : pmState row = "Paused" ∨ pmState row = "Retired") :
    compute_status today row dsd ms = (pmState row, (urgency_status today row dsd ms).2) := by
  unfold compute_status
  rw [if_pos h]

lemma compute_status_no_override_eq (today : Date) (row : Row) (dsd ms : Int)
    (h1 : pmState row ≠ "Paused") (h2 : pmState row ≠ "Retired") :
    compute_status today row dsd ms = urgency_status today row dsd ms := by
  unfold compute_status
  rw [if_neg (by rintro (h | h); exacts [h1 h, h2 h])]

lemma meter_not_time {row : Row} (ht : intervalTypeOf row = "Meter") :
    ¬(intervalTypeOf row = "Days" ∨ intervalTypeOf row = "Weeks"
      ∨ intervalTypeOf row = "Months") := by
  rw [ht]
  rintro (h | h | h) <;> simp at h

lemma compute_next_due_congr (today : Date) (r1 r2 : Row)
    (h1 : r1.IntervalType = r2.IntervalType) (h2 : r1.IntervalValue = r2.IntervalValue)
    (h3 : r1.LastDoneDate = r2.LastDoneDate) (h4 : r1.LastMeter = r2.LastMeter)
    (h5 : r1.CurrentMeter = r2.CurrentMeter) :
    compute_next_due today r1 = compute_next_due today r2 := by
  unfold compute_next_due intervalTypeOf
  rw [h1, h2, h3, h4, h5]

lemma urgency_status_congr (today : Date) (r1 r2 : Row) (dsd ms : Int)
    (h1 : r1.IntervalType = r2.IntervalType) (h2 : r1.NextDueDate = r2.NextDueDate)
    (h3 : r1.NextDueMeter = r2.NextDueMeter) (h4 : r1.CurrentMeter = r2.CurrentMeter) :
    urgency_status today r1 dsd ms = urgency_status today r2 dsd ms := by
  unfold urgency_status intervalTypeOf
  rw [h1, h2, h3, h4]

lemma urgency_status_mem_six (today : Date) (r : Row) (dsd ms : Int) :
    (urgency_status today r dsd ms).1 ∈ sixStates := by
  unfold urgency_status
  split_ifs with h1 h2
  · cases hp : parse_date r.NextDueDate <;> dsimp only
    · decide
    · split_ifs <;> decide
  · cases hx : safe_int r.NextDueMeter <;> cases hy : safe_int r.CurrentMeter <;> dsimp only
    · decide
    · decide
    · decide
    · split_ifs <;> decide
  · decide

lemma compute_status_mem_six (today : Date) (r : Row) (dsd ms : Int) :
    (compute_status today r dsd ms).1 ∈ sixStates := by
  unfold compute_status
  dsimp only
  split_ifs with h
  · rcases h with h | h <;> rw [h] <;> decide
  · exact urgency_status_mem_six today r dsd ms

lemma ratTrunc_bounds (q : ℚ) :
    |(ratTrunc q : ℚ)| ≤ |q| ∧ |q| < |(ratTrunc q : ℚ)| + 1 ∧
    (0 ≤ q → 0 ≤ ratTrunc q) ∧ (q ≤ 0 → ratTrunc q ≤ 0) := by
  have hd : (0 : ℤ) < (q.den : ℤ) := by exact_mod_cast q.den_pos
  have hdq : (0 : ℚ) < (q.den : ℚ) := by exact_mod_cast q.den_pos
  have key : ∀ a : ℤ, 0 ≤ a →
      ((Int.tdiv a q.den : ℚ) * q.den ≤ a ∧ (a : ℚ) < (Int.tdiv a q.den + 1) * q.den
        ∧ 0 ≤ Int.tdiv a q.den) := by
    intro a ha
    rw [Int.tdiv_eq_ediv ha (le_of_lt hd)]
    refine ⟨?_, ?_, Int.ediv_nonneg ha (le_of_lt hd)⟩
    · exact_mod_cast Int.ediv_mul_le a (ne_of_gt hd)
    · exact_mod_cast Int.lt_ediv_add_one_mul_self a hd
  have hq : ((q.num : ℚ)) / (q.den : ℚ) = q := Rat.num_div_den q
  rcases le_or_lt 0 q.num with hn | hn
  · obtain ⟨k1, k2, k3⟩ := key q.num hn
    have hq0 : 0 ≤ q := Rat.num_nonneg.mp hn
    have ht0 : (0 : ℚ) ≤ (ratTrunc q : ℚ) := by exact_mod_cast k3
    rw [abs_of_nonneg hq0, abs_of_nonneg ht0]
    refine ⟨?_, ?_, fun _ => k3, ?_⟩
    · conv_rhs => rw [← hq]
      rw [le_div_iff hdq]
      exact_mod_cast k1
    · conv_lhs => rw [← hq]
      rw [div_lt_iff hdq]
      exact_mod_cast k2
    · intro hq0'
      have hzero : q = 0 := le_antisymm hq0' hq0
      rw [hzero]
      unfold ratTrunc
      simp
  · have hna : 0 ≤ -q.num := by omega
    obtain ⟨k1, k2, k3⟩ := key (-q.num) hna
    have htd : ratTrunc q = -(Int.tdiv (-q.num) q.den) := by
      unfold ratTrunc
      rw [← Int.neg_tdiv, neg_neg]
    have hqneg : ((-q.num : ℤ) : ℚ) / (q.den : ℚ) = -q := by
      push_cast
      rw [neg_div]
      rw [hq]
    have hq0 : q < 0 := by
      rw [← hq]
      apply div_neg_of_neg_of_pos _ hdq
      exact_mod_cast hn
    have ht0 : (ratTrunc q : ℚ) ≤ 0 := by
      rw [htd]
      push_cast
      simp only [neg_nonpos]
      exact_mod_cast k3
    rw [abs_of_nonpos (le_of_lt hq0), abs_of_nonpos ht0]
    refine ⟨?_, ?_, ?_, fun _ => ?_⟩
    · rw [htd]
      push_cast
      rw [neg_neg]
      conv_rhs => rw [← hqneg]
      rw [le_div_iff hdq]
      exact_mod_cast k1
    · rw [htd]
      push_cast
      rw [neg_neg]
      conv_lhs => rw [← hqneg]
      rw [div_lt_iff hdq]
      exact_mod_cast k2
    · intro hcon
      exact absurd hcon (not_le.mpr hq0)
    · rw [htd]
      simp only [neg_nonpos]
      exact k3

/-! Claim theorems. -/

/-- C5: for every record whose stripped pm status is Paused or Retired,
compute_status returns exactly that value as the state, whatever the interval
type and due point, while the urgency delta of steps 1 to 3 is reported
unchanged. -/
theorem paused_retired_override (today : Date) (row : Row) (dsd ms : Int)
    (hpm : pmState row = "Paused" ∨ pmState row = "Retired") :
    overrideLaw today row dsd ms := by
  unfold overrideLaw
  exact compute_status_override_eq today row dsd ms hpm

/-- Instantiation of the override law on a concrete paused record. -/
theorem paused_retired_override_witness : overrideLaw today0 rowPaused 14 50 :=
  paused_retired_override today0 rowPaused 14 50 (Or.inl (by decide))

/-- C10: for every record whose pm status strips to anything other than
exactly Paused or Retired, no override is applied and classification equals
the plain urgency classification; an absent pm status behaves exactly like
"Active". -/
theorem no_override_behaviour (today : Date) (row : Row) (dsd ms : Int)
    (h1 : pmState row ≠ "Paused") (h2 : pmState row ≠ "Retired") :
    noOverrideLaw today row dsd ms := by
  constructor
  · exact compute_status_no_override_eq today row dsd ms h1 h2
  · have e1 : pmState (setPMStatus row none) = "Active" := rfl
    have e2 : pmState (setPMStatus row (some "Active")) = "Active" := rfl
    rw [compute_status_no_override_eq today (setPMStatus row none) dsd ms
      (by rw [e1]; decide) (by rw [e1]; decide)]
    rw [compute_status_no_override_eq today (setPMStatus row (some "Active")) dsd ms
      (by rw [e2]; decide) (by rw [e2]; decide)]
    exact urgency_status_congr today _ _ dsd ms rfl rfl rfl rfl

/-- Instantiation of the no-override law on a concrete active record. -/
theorem no_override_behaviour_witness : noOverrideLaw today0 rowDue 14 50 :=
  no_override_behaviour today0 rowDue 14 50 (by decide) (by decide)

/-- C3: for every meter record with a positive integer interval, the next due
meter is last meter plus interval when the last meter parses (the current
meter has no effect on it), else current meter (zero when absent) plus
interval; the next due date is absent, and both derived fields are absent
when the interval is not a positive integer. -/
theorem compute_next_due_meter_rule (today : Date) (row : Row)
    (ht : intervalTypeOf row = "Meter") : meterRuleLaw today row := by
  have hne := meter_not_time ht
  unfold meterRuleLaw
  refine ⟨?_, ?_, ?_⟩
  · intro hiv
    unfold compute_next_due
    rw [if_neg hne, if_pos ht, hiv]
  · intro n hiv hn
    unfold compute_next_due
    rw [if_neg hne, if_pos ht, hiv]
    dsimp only
    rw [if_pos hn]
  · intro n hiv hn
    have hn0 : ¬(n ≤ 0) := by omega
    constructor
    · intro l hl
      constructor
      · unfold compute_next_due
        rw [if_neg hne, if_pos ht, hiv]
        dsimp only
        rw [if_neg hn0, hl]
      · intro v
        have ht' : intervalTypeOf (set_current_meter row v) = "Meter" := ht
        have hne' := meter_not_time ht'
        have hiv' : safe_int (set_current_meter row v).IntervalValue = some n := hiv
        have hl' : safe_int (set_current_meter row v).LastMeter = some l := hl
        unfold compute_next_due
        rw [if_neg hne', if_pos ht', hiv']
        dsimp only
        rw [if_neg hn0, hl']
    · intro hl
      unfold compute_next_due
      rw [if_neg hne, if_pos ht, hiv]
      dsimp only
      rw [if_neg hn0, hl]

/-- Instantiation of the meter rule on the specification's sample meter
record. -/
theorem compute_next_due_meter_rule_witness : meterRuleLaw today0 rowMeter :=
  compute_next_due_meter_rule today0 rowMeter (by decide)

/-- C4 counterexample: a meter record with no last meter, whose next due
meter does change when only the current meter is overwritten (the claim as
stated is false on such records). -/
theorem bulk_meter_update_counterexample :
    intervalTypeOf rowNoLast = "Meter" ∧
    (compute_next_due today0 rowNoLast).2 = some 150 ∧
    (compute_next_due today0 (set_current_meter rowNoLast (some "300"))).2 = some 400 ∧
    ¬((compute_next_due today0 (set_current_meter rowNoLast (some "300"))).2
        = (compute_next_due today0 rowNoLast).2) := by decide

/-- C4 (amended): for a meter record whose last meter parses as a number,
overwriting only the current meter leaves both derived fields of
compute_next_due unchanged; when the last meter is absent the due point is
based on the current meter and can change. -/
theorem bulk_meter_update_frame (today : Date) (row : Row)
    (ht : intervalTypeOf row = "Meter") (hl0 : safe_int row.LastMeter ≠ none) :
    currentMeterFrame today row := by
  intro v
  obtain ⟨l, hl⟩ : ∃ l, safe_int row.LastMeter = some l := by
    cases h : safe_int row.LastMeter with
    | none => exact absurd h hl0
    | some l => exact ⟨l, rfl⟩
  have ht' : intervalTypeOf (set_current_meter row v) = "Meter" := ht
  have hne := meter_not_time ht
  have hne' := meter_not_time ht'
  cases hiv : safe_int row.IntervalValue with
  | none =>
    have hiv' : safe_int (set_current_meter row v).IntervalValue = none := hiv
    unfold compute_next_due
    rw [if_neg hne, if_pos ht, hiv, if_neg hne', if_pos ht', hiv']
  | some n =>
    have hiv' : safe_int (set_current_meter row v).IntervalValue = some n := hiv
    by_cases hn : n ≤ 0
    · unfold compute_next_due
      rw [if_neg hne, if_pos ht, hiv, if_neg hne', if_pos ht', hiv']
      dsimp only
      rw [if_pos hn, if_pos hn]
    · have hl' : safe_int (set_current_meter row v).LastMeter = some l := hl
      unfold compute_next_due
      rw [if_neg hne, if_pos ht, hiv, if_neg hne', if_pos ht', hiv']
      dsimp only
      rw [if_neg hn, if_neg hn, hl, hl']

/-- Instantiation of the amended bulk-update frame law on a record with a
stored last meter. -/
theorem bulk_meter_update_frame_witness : currentMeterFrame today0 rowMeter :=
  bulk_meter_update_frame today0 rowMeter (by decide) (by decide)

/-! Bridge between the integer truncation of safe_int and the rational value
of the parsed float literal. -/

lemma ratTrunc_neg (q : ℚ) : ratTrunc (-q) = -(ratTrunc q) := by
  unfold ratTrunc
  rw [Rat.num_neg_eq_neg_num, Rat.den_neg_eq_den]
  exact Int.neg_tdiv _ _

lemma ratTrunc_div_pow (m k : ℕ) :
    ratTrunc ((m : ℚ) / (10 : ℚ) ^ k) = ((m / 10 ^ k : ℕ) : ℤ) := by
  have hB : (0 : ℚ) < (10 : ℚ) ^ k := by positivity
  have hq0 : (0 : ℚ) ≤ (m : ℚ) / (10 : ℚ) ^ k := by positivity
  obtain ⟨b1, b2, b3, _⟩ := ratTrunc_bounds ((m : ℚ) / (10 : ℚ) ^ k)
  set t := ratTrunc ((m : ℚ) / (10 : ℚ) ^ k) with hts
  have ht0 : 0 ≤ t := b3 hq0
  have ht0q : (0 : ℚ) ≤ (t : ℚ) := by exact_mod_cast ht0
  rw [abs_of_nonneg hq0, abs_of_nonneg ht0q] at b1 b2
  have hcast : ((10 ^ k : ℕ) : ℚ) = (10 : ℚ) ^ k := by push_cast; ring
  have hd1 : ((m / 10 ^ k : ℕ) : ℚ) ≤ (m : ℚ) / (10 : ℚ) ^ k := by
    rw [le_div_iff hB, ← hcast]
    exact_mod_cast Nat.div_mul_le_self m (10 ^ k)
  have hd2 : (m : ℚ) / (10 : ℚ) ^ k < ((m / 10 ^ k : ℕ) : ℚ) + 1 := by
    rw [div_lt_iff hB]
    have h1 := Nat.div_add_mod m (10 ^ k)
    have h2 : m % 10 ^ k < 10 ^ k := Nat.mod_lt _ (by positivity)
    have h3 : m < (m / 10 ^ k + 1) * 10 ^ k := by
      have h4 : m < 10 ^ k * (m / 10 ^ k) + 10 ^ k := by omega
      calc m < 10 ^ k * (m / 10 ^ k) + 10 ^ k := h4
        _ = (m / 10 ^ k + 1) * 10 ^ k := by ring
    calc (m : ℚ) < (((m / 10 ^ k + 1) * 10 ^ k : ℕ) : ℚ) := by exact_mod_cast h3
      _ = (((m / 10 ^ k : ℕ) : ℚ) + 1) * (10 : ℚ) ^ k := by push_cast; ring
  have e1 : (t : ℚ) < ((m / 10 ^ k : ℕ) : ℚ) + 1 := lt_of_le_of_lt b1 hd2
  have e2 : ((m / 10 ^ k : ℕ) : ℚ) < (t : ℚ) + 1 := lt_of_le_of_lt hd1 b2
  have e1' : t < ((m / 10 ^ k : ℕ) : ℤ) + 1 := by
    have h := e1
    rw [show ((m / 10 ^ k : ℕ) : ℚ) + 1 = ((((m / 10 ^ k : ℕ) : ℤ) + 1 : ℤ) : ℚ) from by
      norm_cast] at h
    exact Int.cast_lt.mp h
  have e2' : ((m / 10 ^ k : ℕ) : ℤ) < t + 1 := by
    have h := e2
    rw [show ((m / 10 ^ k : ℕ) : ℚ) = ((((m / 10 ^ k : ℕ) : ℤ)) : ℚ) from by
          norm_cast,
        show ((t : ℚ) + 1) = ((t + 1 : ℤ) : ℚ) from by
          norm_cast] at h
    exact Int.cast_lt.mp h
  omega

lemma truncParts_eq_ratTrunc (p : Bool × Nat × Int) :
    truncParts p = ratTrunc (ratOfParts p) := by
  obtain ⟨neg, m, e⟩ := p
  rcases le_or_lt 0 e with he | he
  · have hzp : (10 : ℚ) ^ e = (10 : ℚ) ^ e.toNat := by
      rw [← zpow_natCast (10 : ℚ) e.toNat, Int.toNat_of_nonneg he]
    cases neg with
    | false =>
      have ht1 : truncParts (false, m, e)
          = if 0 ≤ e then ((m * 10 ^ e.toNat : ℕ) : ℤ)
            else ((m / 10 ^ (-e).toNat : ℕ) : ℤ) := rfl
      rw [ht1, if_pos he]
      rw [show ratOfParts (false, m, e) = (m : ℚ) * (10 : ℚ) ^ e from rfl]
      have hv : (m : ℚ) * (10 : ℚ) ^ e = (((m * 10 ^ e.toNat : ℕ) : ℤ) : ℚ) := by
        rw [hzp]
        push_cast
        ring
      rw [hv, ratTrunc_intCast]
    | true =>
      have ht1 : truncParts (true, m, e)
          = if 0 ≤ e then -((m * 10 ^ e.toNat : ℕ) : ℤ)
            else -((m / 10 ^ (-e).toNat : ℕ) : ℤ) := rfl
      rw [ht1, if_pos he]
      rw [show ratOfParts (true, m, e) = -(m : ℚ) * (10 : ℚ) ^ e from rfl]
      have hv : -(m : ℚ) * (10 : ℚ) ^ e = -((((m * 10 ^ e.toNat : ℕ)) : ℤ) : ℚ) := by
        rw [hzp]
        push_cast
        ring
      rw [hv, ratTrunc_neg, ratTrunc_intCast]
  · have hzp : (10 : ℚ) ^ e = 1 / (10 : ℚ) ^ ((-e).toNat) := by
      rw [← zpow_natCast (10 : ℚ) ((-e).toNat), Int.toNat_of_nonneg (by omega : (0:ℤ) ≤ -e)]
      rw [show e = -(-e) from by ring, zpow_neg, neg_neg, one_div]
    cases neg with
    | false =>
      have ht1 : truncParts (false, m, e)
          = if 0 ≤ e then ((m * 10 ^ e.toNat : ℕ) : ℤ)
            else ((m / 10 ^ (-e).toNat : ℕ) : ℤ) := rfl
      rw [ht1, if_neg (by omega)]
      rw [show ratOfParts (false, m, e) = (m : ℚ) * (10 : ℚ) ^ e from rfl]
      have hv : (m : ℚ) * (10 : ℚ) ^ e = (m : ℚ) / (10 : ℚ) ^ ((-e).toNat) := by
        rw [hzp]
        ring
      rw [hv, ratTrunc_div_pow]
    | true =>
      have ht1 : truncParts (true, m, e)
          = if 0 ≤ e then -((m * 10 ^ e.toNat : ℕ) : ℤ)
            else -((m / 10 ^ (-e).toNat : ℕ) : ℤ) := rfl
      rw [ht1, if_neg (by omega)]
      rw [show ratOfParts (true, m, e) = -(m : ℚ) * (10 : ℚ) ^ e from rfl]
      have hv : -(m : ℚ) * (10 : ℚ) ^ e = -((m : ℚ) / (10 : ℚ) ^ ((-e).toNat)) := by
        rw [hzp]
        ring
      rw [hv, ratTrunc_neg, ratTrunc_div_pow]

/-- C2: for every record with a time-based interval type whose last-done
date is absent, empty or strictly parseable (where the model's parser and
the source's parser chain agree), a positive integer interval adds that many
days, weeks or calendar months (with day-of-month clamping) to the last-done
date, today when that is absent, leaving the meter field absent — the result
being asserted when it stays inside Python's date range, outside which the
source's date arithmetic raises instead of returning; a missing, zero or
negative interval gives two absent fields. -/
theorem compute_next_due_time_rules (today : Date) (row : Row)
    (ht : intervalTypeOf row = "Days" ∨ intervalTypeOf row = "Weeks"
      ∨ intervalTypeOf row = "Months")
    (hld : lastDoneOk row) : timeRuleLaw today row := by
  unfold timeRuleLaw
  refine ⟨?_, ?_, ?_⟩
  · intro hiv
    unfold compute_next_due
    rw [if_pos ht, hiv]
  · intro n hiv hn
    unfold compute_next_due
    rw [if_pos ht, hiv]
    dsimp only
    rw [if_pos hn]
  · intro n hiv hn
    have hn0 : ¬(n ≤ 0) := by omega
    intro base hbase
    refine ⟨?_, ?_, ?_⟩
    · intro hD
      constructor
      · intro _
        unfold compute_next_due
        rw [if_pos ht, hiv]
        dsimp only
        rw [if_neg hn0, if_pos hD, hbase]
      · intro hvb
        obtain ⟨h1, h2⟩ := addDays_spec n.toNat base hvb
        refine ⟨h1, ?_⟩
        rw [h2]
        push_cast
        omega
    · intro hW
      have hnotD : ¬(intervalTypeOf row = "Days") := by rw [hW]; decide
      constructor
      · intro _
        unfold compute_next_due
        rw [if_pos ht, hiv]
        dsimp only
        rw [if_neg hn0, if_neg hnotD, if_pos hW, hbase]
      · intro hvb
        obtain ⟨h1, h2⟩ := addDays_spec (7 * n.toNat) base hvb
        refine ⟨h1, ?_⟩
        rw [h2]
        push_cast
        omega
    · intro hM
      have hnotD : ¬(intervalTypeOf row = "Days") := by rw [hM]; decide
      have hnotW : ¬(intervalTypeOf row = "Weeks") := by rw [hM]; decide
      refine ⟨?_, addMonths_day base n.toNat, ?_⟩
      · intro _
        unfold compute_next_due
        rw [if_pos ht, hiv]
        dsimp only
        rw [if_neg hn0, if_neg hnotD, if_neg hnotW, hbase]
      · intro hvb
        exact ⟨validDate_addMonths hvb n.toNat, monthIndex_addMonths hvb n.toNat⟩

/-- Instantiation of the time rule on a concrete Months record. -/
theorem compute_next_due_time_rules_witness : timeRuleLaw today0 rowMonths :=
  compute_next_due_time_rules today0 rowMonths (Or.inr (Or.inr (by decide)))
    (Or.inl (by decide))

/-- C1: for every record not overridden by a Paused or Retired pm status,
classification is Overdue exactly when the delta to the stored due point is
negative, Due Soon exactly when it is between zero and the threshold
(inclusive on both ends), OK exactly when it exceeds the threshold, with the
delta reported; missing inputs classify as Unknown with an absent delta. -/
theorem classify_three_way_law (today : Date) (row : Row) (dsd ms : Int)
    (hpm : pmState row ≠ "Paused" ∧ pmState row ≠ "Retired")
    (hdsd : 0 ≤ dsd) (hms : 0 ≤ ms) :
    classifyLaw today row dsd ms := by
  have hcs := compute_status_no_override_eq today row dsd ms hpm.1 hpm.2
  unfold classifyLaw
  rw [hcs]
  constructor
  · intro ht
    unfold urgency_status
    rw [if_pos ht]
    constructor
    · intro hnd
      rw [hnd]
    · intro nd hnd
      rw [hnd]
      dsimp only
      refine ⟨rfl, ?_, ?_, ?_⟩
      · split_ifs with a b
        · exact iff_of_true rfl a
        · exact iff_of_false (by decide) a
        · exact iff_of_false (by decide) a
      · split_ifs with a b
        · exact iff_of_false (by decide) (by omega)
        · exact iff_of_true rfl ⟨by omega, b⟩
        · exact iff_of_false (by decide) (by omega)
      · split_ifs with a b
        · exact iff_of_false (by decide) (by omega)
        · exact iff_of_false (by decide) (by omega)
        · exact iff_of_true rfl (by omega)
  · intro ht
    have hne := meter_not_time ht
    unfold urgency_status
    rw [if_neg hne, if_pos ht]
    constructor
    · rintro (h | h)
      · rw [h]
      · cases hx : safe_int row.NextDueMeter with
        | none => rfl
        | some ndm => rw [h]
    · intro ndm cm h1 h2
      rw [h1, h2]
      dsimp only
      refine ⟨rfl, ?_, ?_, ?_⟩
      · split_ifs with a b
        · exact iff_of_true rfl a
        · exact iff_of_false (by decide) a
        · exact iff_of_false (by decide) a
      · split_ifs with a b
        · exact iff_of_false (by decide) (by omega)
        · exact iff_of_true rfl ⟨by omega, b⟩
        · exact iff_of_false (by decide) (by omega)
      · split_ifs with a b
        · exact iff_of_false (by decide) (by omega)
        · exact iff_of_false (by decide) (by omega)
        · exact iff_of_true rfl (by omega)

/-- Instantiation of the three-way law on a concrete date record. -/
theorem classify_three_way_law_witness : classifyLaw today0 rowDue 14 50 :=
  classify_three_way_law today0 rowDue 14 50 ⟨by decide, by decide⟩
    (by decide) (by decide)

/-- C8 counterexample: a row with an unrecognized interval type and a Paused
pm status classifies as Paused, not Unknown, so the claim's unconditional
Unknown classification is false as stated. -/
theorem never_raise_counterexample :
    intervalTypeOf rowBogus ≠ "Days" ∧ intervalTypeOf rowBogus ≠ "Weeks" ∧
    intervalTypeOf rowBogus ≠ "Months" ∧ intervalTypeOf rowBogus ≠ "Meter" ∧
    compute_next_due today0 rowBogus = (none, none) ∧
    compute_status today0 rowBogus 14 50 = ("Paused", none) ∧
    ¬(compute_status today0 rowBogus 14 50 = ("Unknown", none)) := by decide

/-- C8 (amended): malformed or missing fields degrade to absent derived
fields and an Unknown urgency rather than failing; an unrecognized interval
type yields absent derived fields and the classification Unknown, except
that a Paused or Retired pm status still replaces the state; the fallback of
the recurrence base to today is asserted for results inside Python's date
range, outside which the source's uncaught date arithmetic raises rather
than degrading. -/
theorem unknown_degradation (today : Date) (row : Row) (dsd ms : Int) :
    degradationLaw today row dsd ms := by
  unfold degradationLaw
  refine ⟨?_, ?_, ?_, ?_⟩
  · intro h1 h2 h3 h4
    have hne : ¬(intervalTypeOf row = "Days" ∨ intervalTypeOf row = "Weeks"
        ∨ intervalTypeOf row = "Months") := by
      rintro (h | h | h)
      exacts [h1 h, h2 h, h3 h]
    have hu : urgency_status today row dsd ms = ("Unknown", none) := by
      unfold urgency_status
      rw [if_neg hne, if_neg h4]
    refine ⟨?_, hu, ?_, ?_⟩
    · unfold compute_next_due
      rw [if_neg hne, if_neg h4]
    · intro p1 p2
      rw [compute_status_no_override_eq today row dsd ms p1 p2, hu]
    · intro hov
      rw [compute_status_override_eq today row dsd ms hov, hu]
  · intro hiv
    unfold compute_next_due
    by_cases hd : (intervalTypeOf row = "Days" ∨ intervalTypeOf row = "Weeks"
        ∨ intervalTypeOf row = "Months")
    · rw [if_pos hd, hiv]
    · by_cases hm : intervalTypeOf row = "Meter"
      · rw [if_neg hd, if_pos hm, hiv]
      · rw [if_neg hd, if_neg hm]
  · intro ht
    constructor
    · intro hnd
      unfold urgency_status
      rw [if_pos ht, hnd]
    · intro n hiv hn hld _
      have hpd : parse_date row.LastDoneDate = none := by
        rcases hld with h | h <;> rw [h] <;> rfl
      have hn0 : ¬(n ≤ 0) := by omega
      unfold compute_next_due
      rw [if_pos ht, hiv]
      dsimp only
      rw [if_neg hn0, hpd]
      split_ifs <;> rfl
  · intro hm hdis
    have hne := meter_not_time hm
    unfold urgency_status
    rw [if_neg hne, if_pos hm]
    rcases hdis with h | h
    · rw [h]
    · cases hx : safe_int row.NextDueMeter with
      | none => rfl
      | some ndm => rw [h]

/-- Instantiation of the degradation law on the unrecognized-type row. -/
theorem unknown_degradation_witness : degradationLaw today0 rowBogus 14 50 :=
  unknown_degradation today0 rowBogus 14 50

set_option maxRecDepth 10000 in
/-- C9 counterexample: float() accepts the string 1e999 (the lexer reads it
as the finite decimal literal 1 * 10^999) and it is not blank, yet safe_int
treats it as absent, because the value overflows the double range so that
float() returns an infinity and int() raises; absence is therefore not
limited to absent values, blank strings and float-parse failures as the
claim states. -/
theorem safe_int_absent_counterexample :
    pyFloatLex "1e999" = some (PyLit.finite false 1 999) ∧
    pyStrip "1e999" ≠ "" ∧
    safe_int_none (some "1e999") = true := by decide

set_option maxRecDepth 10000 in
/-- C9 (amended): safe_int yields an absent value exactly for an absent
cell, a blank string, a string float() rejects, the special nan and infinity
words, and finite literals overflowing the double range to an infinity;
every other accepted string — fractional and underscore-grouped literals
included — yields a number, with fractional values truncated toward zero
(6.9 used as 6, -6.9 as -6) rather than rejected. -/
theorem safe_int_absent_boundary : safeIntBoundaryLaw := by
  unfold safeIntBoundaryLaw
  refine ⟨?_, ?_, by decide, by decide, by decide, by decide, by decide,
    rfl, by decide, by decide, by decide, by decide⟩
  · intro v
    constructor
    · intro h
      match v with
      | none => exact Or.inl rfl
      | some s =>
        refine Or.inr ⟨s, rfl, ?_⟩
        by_cases hb : pyStrip s = ""
        · exact Or.inl hb
        · rw [show safe_int_none (some s)
              = (if pyStrip s = "" then true
                 else match pyFloatLex s with
                   | none => true
                   | some PyLit.special => true
                   | some (PyLit.finite _ m e) => finiteOverflows m e) from rfl,
            if_neg hb] at h
          cases hL : pyFloatLex s with
          | none => exact Or.inr (Or.inl rfl)
          | some l =>
            cases l with
            | special => exact Or.inr (Or.inr (Or.inl rfl))
            | finite neg m e =>
              rw [hL] at h
              exact Or.inr (Or.inr (Or.inr ⟨neg, m, e, rfl, h⟩))
    · intro h
      rcases h with h | ⟨s, hv, hcase⟩
      · rw [h]
        rfl
      · rw [hv]
        rw [show safe_int_none (some s)
            = (if pyStrip s = "" then true
               else match pyFloatLex s with
                 | none => true
                 | some PyLit.special => true
                 | some (PyLit.finite _ m e) => finiteOverflows m e) from rfl]
        by_cases hb : pyStrip s = ""
        · rw [if_pos hb]
        · rw [if_neg hb]
          rcases hcase with h1 | h1 | h1 | ⟨neg, m, e, h1, h2⟩
          · exact absurd h1 hb
          · rw [h1]
          · rw [h1]
          · rw [h1]
            exact h2
  · intro s neg m e hL hov hb
    rw [show safe_int_none (some s)
        = (if pyStrip s = "" then true
           else match pyFloatLex s with
             | none => true
             | some PyLit.special => true
             | some (PyLit.finite _ m e) => finiteOverflows m e) from rfl,
      if_neg hb, hL]
    exact hov

lemma kpiFold_eq (today : Date) (dsd ms : Int) (rows : List Row)
    (acc : String → Nat) (s : String) :
    rows.foldl
      (fun acc r s =>
        if s = (compute_status today r dsd ms).1 then acc s + 1 else acc s)
      acc s
    = acc s + (rows.filter
        (fun r => (compute_status today r dsd ms).1 == s)).length := by
  induction rows generalizing acc with
  | nil => simp
  | cons r rs ih =>
    rw [List.foldl_cons, ih]
    simp only [List.filter_cons]
    by_cases h : s = (compute_status today r dsd ms).1
    · have hb : ((compute_status today r dsd ms).1 == s) = true := by
        rw [beq_iff_eq]
        exact h.symm
      rw [hb, if_pos h]
      simp only [if_true, List.length_cons]
      omega
    · have hb : ((compute_status today r dsd ms).1 == s) = false := by
        rw [beq_eq_false_iff_ne]
        exact fun hx => h hx.symm
      rw [hb, if_neg h]
      simp only [Bool.false_eq_true, if_false]

lemma kpiCounts_filter (today : Date) (rows : List Row) (dsd ms : Int)
    (s : String) :
    kpiCounts today rows dsd ms s
      = (rows.filter (fun r => (compute_status today r dsd ms).1 == s)).length := by
  unfold kpiCounts
  rw [kpiFold_eq]
  exact Nat.zero_add _

lemma kpiCounts_cons (today : Date) (r : Row) (rs : List Row) (dsd ms : Int)
    (s : String) :
    kpiCounts today (r :: rs) dsd ms s
      = (if (compute_status today r dsd ms).1 == s then 1 else 0)
        + kpiCounts today rs dsd ms s := by
  rw [kpiCounts_filter, kpiCounts_filter, List.filter_cons]
  by_cases h : ((compute_status today r dsd ms).1 == s) = true
  · rw [if_pos h, if_pos h, List.length_cons]
    omega
  · rw [if_neg h, if_neg h]
    omega

lemma kpi_sum (today : Date) (rows : List Row) (dsd ms : Int)
    (h : ∀ r, r ∈ rows → (compute_status today r dsd ms).1 ∈ sixStates) :
    (sixStates.map (kpiCounts today rows dsd ms)).sum = rows.length := by
  induction rows with
  | nil => rfl
  | cons r rs ih =>
    have hmem : (compute_status today r dsd ms).1 ∈ sixStates := h r (by simp)
    have ih' := ih (fun x hx => h x (by simp [hx]))
    simp only [sixStates, List.map_cons, List.map_nil, List.sum_cons,
      List.sum_nil] at ih' ⊢
    rw [kpiCounts_cons, kpiCounts_cons, kpiCounts_cons, kpiCounts_cons,
      kpiCounts_cons, kpiCounts_cons]
    simp only [sixStates, List.mem_cons, List.not_mem_nil, or_false] at hmem
    rcases hmem with h1 | h1 | h1 | h1 | h1 | h1 <;> rw [h1] <;> simp <;> omega

/-- C7: the KPI tiles are computed from the full, unfiltered collection:
each bucket of the aggregation fold counts exactly the records of the whole
collection classified with that state, every record falls in one of the six
tile states, and the six tile counts sum to the collection size. -/
theorem kpi_aggregation_law (today : Date) (rows : List Row) (dsd ms : Int) :
    kpiLaw today rows dsd ms :=
  ⟨fun s => kpiCounts_filter today rows dsd ms s,
   kpi_sum today rows dsd ms (fun r _ => compute_status_mem_six today r dsd ms),
   fun r _ => compute_status_mem_six today r dsd ms⟩

lemma postRecord_LastDoneDate (r : Row) (D : Date) (mstr : String) :
    (postRecord r D mstr).LastDoneDate = some (dateToStr D) := by
  unfold postRecord
  dsimp only
  split <;> rfl

lemma postRecord_stable (r : Row) (D : Date) (mstr : String) :
    (postRecord r D mstr).Site = r.Site ∧
    (postRecord r D mstr).AssetID = r.AssetID ∧
    (postRecord r D mstr).AssetName = r.AssetName ∧
    (postRecord r D mstr).Component = r.Component ∧
    (postRecord r D mstr).PMTask = r.PMTask ∧
    (postRecord r D mstr).IntervalType = r.IntervalType ∧
    (postRecord r D mstr).IntervalValue = r.IntervalValue ∧
    (postRecord r D mstr).Priority = r.Priority ∧
    (postRecord r D mstr).PMStatus = r.PMStatus ∧
    (postRecord r D mstr).Owner = r.Owner ∧
    (postRecord r D mstr).Notes = r.Notes := by
  unfold postRecord
  dsimp only
  split <;> exact ⟨rfl, rfl, rfl, rfl, rfl, rfl, rfl, rfl, rfl, rfl, rfl⟩

lemma postRecord_meter_set (r : Row) (D : Date) (mstr : String)
    (h : r.IntervalType = some "Meter" ∧ pyStrip mstr ≠ "") :
    (postRecord r D mstr).LastMeter = some (pyStrip mstr) ∧
    (postRecord r D mstr).CurrentMeter = some (pyStrip mstr) := by
  unfold postRecord
  dsimp only
  rw [if_pos h]
  exact ⟨rfl, rfl⟩

lemma postRecord_meter_keep (r : Row) (D : Date) (mstr : String)
    (h : ¬(r.IntervalType = some "Meter" ∧ pyStrip mstr ≠ "")) :
    (postRecord r D mstr).LastMeter = r.LastMeter ∧
    (postRecord r D mstr).CurrentMeter = r.CurrentMeter := by
  unfold postRecord
  dsimp only
  rw [if_neg h]
  exact ⟨rfl, rfl⟩

/-- C6: the Log Completion handler touches only the selected record, stores
the completion date (and, on a meter row with a non-blank reading, that
stripped reading as both last and current meter), leaves every other stored
column unchanged, and the derived fields it stores parse back to exactly
compute_next_due of the post-update record, provided any recomputed due date
is a valid date of year at most 9999 (as any date the source's arithmetic
can produce is). -/
theorem log_completion_correct (today : Date) (rows : List Row) (i : Nat)
    (D : Date) (mstr : String) (r : Row) (hr : rows[i]? = some r)
    (hnd : ∀ d, (compute_next_due today (postRecord r D mstr)).1 = some d →
      validDate d = true ∧ d.year ≤ 9999) :
    logCompletionLaw today rows i D mstr r := by
  have hlen : i < rows.length := by
    by_contra hge
    rw [List.getElem?_eq_none (by omega)] at hr
    exact Option.noConfusion hr
  unfold logCompletionLaw log_completion
  rw [hr]
  obtain ⟨s1, s2, s3, s4, s5, s6, s7, s8, s9, s10, s11⟩ := postRecord_stable r D mstr
  refine ⟨by simp, fun j hj => List.getElem?_set_ne (fun hx => hj hx.symm),
    _, List.getElem?_set_self hlen, postRecord_LastDoneDate r D mstr,
    fun h => postRecord_meter_set r D mstr h,
    fun h => postRecord_meter_keep r D mstr h,
    s1, s2, s3, s4, s5, s6, s7, s8, s9, s10, s11, ?_, ?_⟩
  · have hcnd : compute_next_due today
        ({ postRecord r D mstr with
            NextDueDate := some (match (compute_next_due today (postRecord r D mstr)).1 with
              | some d => dateToStr d
              | none => "")
            NextDueMeter := some (match (compute_next_due today (postRecord r D mstr)).2 with
              | some n => intToString n
              | none => "") })
        = compute_next_due today (postRecord r D mstr) :=
      compute_next_due_congr today _ _ rfl rfl rfl rfl rfl
    rw [hcnd]
    cases hx : (compute_next_due today (postRecord r D mstr)).1 with
    | none =>
      dsimp only
      rfl
    | some d =>
      dsimp only
      obtain ⟨hv, hy⟩ := hnd d hx
      exact parse_print_date hv hy
  · have hcnd : compute_next_due today
        ({ postRecord r D mstr with
            NextDueDate := some (match (compute_next_due today (postRecord r D mstr)).1 with
              | some d => dateToStr d
              | none => "")
            NextDueMeter := some (match (compute_next_due today (postRecord r D mstr)).2 with
              | some n => intToString n
              | none => "") })
        = compute_next_due today (postRecord r D mstr) :=
      compute_next_due_congr today _ _ rfl rfl rfl rfl rfl
    rw [hcnd]
    cases hx : (compute_next_due today (postRecord r D mstr)).2 with
    | none =>
      dsimp only
      rfl
    | some n =>
      dsimp only
      exact safe_int_intToString n

/-- Instantiation of the Log Completion law: completing the Months record of
the two-row sample collection on 2026-10-12. -/
theorem log_completion_correct_witness :
    logCompletionLaw today0 rowsLog 1 today0 "" rowMonths :=
  log_completion_correct today0 rowsLog 1 today0 "" rowMonths (by decide)
    (by
      intro d hd
      rw [show (compute_next_due today0 (postRecord rowMonths today0 "")).1
          = some (⟨2027, 4, 12⟩ : Date) from by decide] at hd
      injection hd with h
      exact h ▸ ⟨by decide, by decide⟩)

end PmDash
